import Mathlib

/-!
Verification of the MS Teams voice-call bridge (clawdbot `msteams-call`
extension) against its natural-language specification.

The definitions below are a shallow embedding of the TypeScript sources:

* `AudioQueue`       — `src/audio-queue.ts` (ordered audio frame queue with
  jitter buffer).  The JS `Map<number, Buffer[]>` is embedded as an
  association list `List (ℕ × List Frame)` mirroring `Map.get/set/delete`
  (update-in-place, insert-at-end), and the JS `Set<number>` of skipped
  sequence ids as a duplicate-free `List ℕ`.
* resampler          — `src/audio-utils.ts` (`resample16kTo24k`, byte-level,
  with the stochastic TPDF dither left as an oracle parameter).
* bridge             — `src/bridge.ts` (session registry, pending outbound
  calls, authorization decision).
* message parsing    — `src/bridge-messages.ts` (`requireMetadata`,
  `parseAuthRequest`, `validateCallId`).
* transcript log     — `src/conversation-session-manager.ts` and the direct
  transcript push in `src/streaming-voice-controller.ts`.
* controller         — `src/streaming-voice-controller.ts` (`cancel`) and the
  `userSpeakingHandler` of `src/runtime.ts`.
-/

namespace TeamsBridge

/-- An audio frame: a byte buffer (640 bytes for 20 ms @ 16 kHz). -/
abbrev Frame := List ℕ

/-! ### Association-list embedding of the JS `Map` used by `AudioQueue` -/

/-- `Map.get`: first entry with the given key. -/
def mapGet (m : List (ℕ × List Frame)) (k : ℕ) : Option (List Frame) :=
  (m.find? (fun p => p.1 == k)).map Prod.snd

/-- `Map.set`: replace the value in place when the key is present,
otherwise append the new entry (JS `Map` keeps insertion order). -/
def mapSet (m : List (ℕ × List Frame)) (k : ℕ) (v : List Frame) :
    List (ℕ × List Frame) :=
  if (m.find? (fun p => p.1 == k)).isSome then
    m.map (fun p => if p.1 == k then (k, v) else p)
  else
    m ++ [(k, v)]

/-- `Map.delete`: remove the entry with the given key. -/
def mapDelete (m : List (ℕ × List Frame)) (k : ℕ) : List (ℕ × List Frame) :=
  m.filter (fun p => !(p.1 == k))

/-! ### AudioQueue (`src/audio-queue.ts`) -/

/-- State of `class AudioQueue` (audio-queue.ts:50-66). -/
structure AudioQueue where
  nextDequeueSequence : ℕ
  framesBySequence : List (ℕ × List Frame)
  skippedSequences : List ℕ
  jitterBufferFilled : Bool
  minJitterFrames : ℕ
deriving DecidableEq, Repr

/-- Fresh queue with the given `minJitterFrames` (constructor,
audio-queue.ts:63-66; option default is 25). -/
def AudioQueue.mk0 (minJitter : ℕ) : AudioQueue :=
  ⟨0, [], [], false, minJitter⟩

/-- Fuelled body of `advanceSkippedSequences`; each loop iteration removes
one element of the skipped set, so `skipped.length` fuel always suffices. -/
def advanceSkippedAux : ℕ → ℕ → List ℕ → ℕ × List ℕ
  | 0, next, skipped => (next, skipped)
  | fuel + 1, next, skipped =>
      if next ∈ skipped then advanceSkippedAux fuel (next + 1) (skipped.erase next)
      else (next, skipped)

/-- `advanceSkippedSequences` (audio-queue.ts:243-248): advance
`nextDequeueSequence` across consecutive skipped ids, deleting them. -/
def advanceSkipped (next : ℕ) (skipped : List ℕ) : ℕ × List ℕ :=
  advanceSkippedAux skipped.length next skipped

/-- `getDepth` (audio-queue.ts:200-206): total frames across all sequences. -/
def AudioQueue.getDepth (q : AudioQueue) : ℕ :=
  (q.framesBySequence.map (fun p => p.2.length)).sum

/-- `enqueue` (audio-queue.ts:77-93). -/
def AudioQueue.enqueue (q : AudioQueue) (sequenceId : ℕ) (frames : List Frame) :
    AudioQueue :=
  if frames = [] then q
  else
    match mapGet q.framesBySequence sequenceId with
    | some existing =>
        { q with framesBySequence :=
            mapSet q.framesBySequence sequenceId (existing ++ frames) }
    | none =>
        { q with framesBySequence :=
            mapSet q.framesBySequence sequenceId frames }

/-- `checkJitterBuffer` (audio-queue.ts:99-123; the stray brace on line 120
is vacuous).  Returns the gate decision together with the mutated state. -/
def AudioQueue.checkJitterBuffer (q : AudioQueue) : Bool × AudioQueue :=
  let a := advanceSkipped q.nextDequeueSequence q.skippedSequences
  let q1 : AudioQueue :=
    { q with nextDequeueSequence := a.1, skippedSequences := a.2 }
  if q1.jitterBufferFilled then (true, q1)
  else if q1.minJitterFrames ≤ q1.getDepth then
    (true, { q1 with jitterBufferFilled := true })
  else
    match mapGet q1.framesBySequence q1.nextDequeueSequence with
    | some fs =>
        if 0 < fs.length then (true, { q1 with jitterBufferFilled := true })
        else (false, q1)
    | none => (false, q1)

/-- `dequeueNext` (audio-queue.ts:132-154). -/
def AudioQueue.dequeueNext (q : AudioQueue) : Option Frame × AudioQueue :=
  let c := q.checkJitterBuffer
  if c.1 = false then (none, c.2)
  else
    let a := advanceSkipped c.2.nextDequeueSequence c.2.skippedSequences
    let q1 : AudioQueue :=
      { c.2 with nextDequeueSequence := a.1, skippedSequences := a.2 }
    match mapGet q1.framesBySequence q1.nextDequeueSequence with
    | none => (none, q1)
    | some [] => (none, q1)
    | some (f :: rest) =>
        if rest = [] then
          (some f,
            { q1 with
              framesBySequence :=
                mapDelete q1.framesBySequence q1.nextDequeueSequence,
              nextDequeueSequence := q1.nextDequeueSequence + 1 })
        else
          (some f,
            { q1 with
              framesBySequence :=
                mapSet q1.framesBySequence q1.nextDequeueSequence rest })

/-- `clear` (audio-queue.ts:160-166). -/
def AudioQueue.clear (q : AudioQueue) : AudioQueue :=
  { q with framesBySequence := [], nextDequeueSequence := 0,
           jitterBufferFilled := false, skippedSequences := [] }

/-- `reset` (audio-queue.ts:172-174): alias for `clear`. -/
def AudioQueue.reset (q : AudioQueue) : AudioQueue := q.clear

/-- `hasPending` (audio-queue.ts:179-181). -/
def AudioQueue.hasPending (q : AudioQueue) : Bool :=
  !q.framesBySequence.isEmpty

/-- `skip` (audio-queue.ts:235-241). -/
def AudioQueue.skip (q : AudioQueue) (sequenceId : ℕ) : AudioQueue :=
  if sequenceId < q.nextDequeueSequence then q
  else if (mapGet q.framesBySequence sequenceId).isSome then q
  else
    let sk := q.skippedSequences.insert sequenceId
    let a := advanceSkipped q.nextDequeueSequence sk
    { q with nextDequeueSequence := a.1, skippedSequences := a.2 }

/-- Repeated `dequeueNext` until it reports `none`, with explicit fuel.
Any fuel at least `getDepth` exhausts the deliverable frames. -/
def drainFuel : ℕ → AudioQueue → List Frame
  | 0, _ => []
  | fuel + 1, q =>
      match q.dequeueNext with
      | (some f, q') => f :: drainFuel fuel q'
      | (none, _) => []

/-! ### Resampler (`src/audio-utils.ts`, 16 kHz → 24 kHz)

Buffers are byte lists; 16-bit samples are read/written little-endian.
JS floating-point arithmetic is modelled exactly over `ℚ`, and the
stochastic TPDF dither (`generateTpdfDither` from `filters.ts`, spec §4.3:
"TPDF dither scaled by 0.5", stochastic by design) is an oracle
parameter `dither : ℕ → ℚ` giving the raw dither drawn for each output
sample. -/

/-- `Buffer.readInt16LE` on a byte list (out-of-range reads yield 0 here;
the source never performs them thanks to `readSample`). -/
def readInt16LE (buffer : List ℕ) (byteIndex : ℕ) : ℤ :=
  let lo := buffer.getD byteIndex 0
  let hi := buffer.getD (byteIndex + 1) 0
  let u := lo + 256 * hi
  if 32768 ≤ u then (u : ℤ) - 65536 else (u : ℤ)

/-- `readSample` (audio-utils, part_006:113-125): read sample `sampleIndex`,
falling back to the last valid sample (or 0) when out of bounds. -/
def readSample (buffer : List ℕ) (sampleIndex : ℕ) : ℤ :=
  let byteIndex := 2 * sampleIndex
  if buffer.length ≤ byteIndex + 1 then
    if buffer.length / 2 = 0 then 0
    else readInt16LE buffer (2 * (buffer.length / 2 - 1))
  else readInt16LE buffer byteIndex

/-- `clamp16` (part_006:130-132). -/
def clamp16 (value : ℤ) : ℤ :=
  max (-32768) (min 32767 value)

/-- JS `Math.round`: round half towards positive infinity. -/
def jsRound (x : ℚ) : ℤ := ⌊x + 1 / 2⌋

/-- `Buffer.writeInt16LE`: two bytes, little-endian two's complement. -/
def writeInt16LE (v : ℤ) : List ℕ :=
  let u := (v % 65536).toNat
  [u % 256, u / 256]

/-- `resample16kTo24k` (part_006:30-59): 3:2 linear interpolation with
TPDF dither, clamped to int16.  Empty input yields empty output. -/
def resample16kTo24k (dither : ℕ → ℚ) (input : List ℕ) : List ℕ :=
  if input.length = 0 then []
  else
    let inputSamples := input.length / 2
    let outputSamples := inputSamples * 3 / 2
    ((List.range outputSamples).map (fun (i : ℕ) =>
      let srcIdx : ℕ := 2 * i / 3
      let frac : ℚ := ((2 * i : ℕ) : ℚ) / 3 - ((srcIdx : ℕ) : ℚ)
      let s0 := readSample input srcIdx
      let s1 := readSample input (srcIdx + 1)
      let interpolated : ℚ := (s0 : ℚ) + frac * ((s1 : ℚ) - (s0 : ℚ))
      let sample := jsRound (interpolated + dither i * (1 / 2))
      writeInt16LE (clamp16 sample))).flatten

/-- `validateTeamsAudioFrame` (bridge-messages.ts:401-403). -/
def validateTeamsAudioFrame (data : List ℕ) : Bool :=
  data.length == 640

/-! ### Generic association-list helpers for `Map<string, _>` states -/

/-- `Map.get` for string keys. -/
def assocGet {β : Type} (m : List (String × β)) (k : String) : Option β :=
  (m.find? (fun p => p.1 == k)).map Prod.snd

/-- `Map.set` for string keys. -/
def assocSet {β : Type} (m : List (String × β)) (k : String) (v : β) :
    List (String × β) :=
  if (m.find? (fun p => p.1 == k)).isSome then
    m.map (fun p => if p.1 == k then (k, v) else p)
  else
    m ++ [(k, v)]

/-- `Map.delete` for string keys. -/
def assocDelete {β : Type} (m : List (String × β)) (k : String) :
    List (String × β) :=
  m.filter (fun p => !(p.1 == k))

/-! ### Protocol data (`src/types.ts`, `src/bridge-messages.ts`) -/

/-- `CallDirection` (types.ts). -/
inductive CallDirection where
  | inbound
  | outbound
deriving DecidableEq, Repr

/-- `SessionMetadata` (types.ts:11-18): `tenantId`, `userId` and
`teamsCallId` are required fields of the interface; the rest optional. -/
structure SessionMetadata where
  tenantId : String
  userId : String
  teamsCallId : String
  displayName : Option String
  userPrincipalName : Option String
  phoneNumber : Option String
deriving DecidableEq, Repr

/-- Character class of the `CALL_ID_REGEX` (bridge-messages.ts:410). -/
def validCallIdChar (c : Char) : Bool :=
  c.isAlphanum || c == '-' || c == '_'

/-- `validateCallId` (bridge-messages.ts:412-414):
`^[a-zA-Z0-9_-]{1,128}$`. -/
def validateCallId (callId : String) : Bool :=
  decide (1 ≤ callId.length) && decide (callId.length ≤ 128) &&
    callId.toList.all validCallIdChar

/-- JSON values as delivered by `JSON.parse` (arrays omitted: no parser
below inspects one). -/
inductive JValue where
  | jstr : String → JValue
  | jnum : ℚ → JValue
  | jbool : Bool → JValue
  | jnull : JValue
  | jobj : List (String × JValue) → JValue

/-- JS object property access on a parsed object. -/
def jLookup (m : List (String × JValue)) (k : String) : Option JValue :=
  (m.find? (fun p => p.1 == k)).map Prod.snd

/-- `requireString` (bridge-messages.ts:216-226).  Error text is the
source message without its quoting of the field name. -/
def requireStringField (m : List (String × JValue)) (field : String) :
    Except String String :=
  match jLookup m field with
  | some (.jstr s) => .ok s
  | _ => .error ("Missing or invalid " ++ field ++ " field")

/-- The `typeof x === "string" ? x : undefined` pattern for optional
metadata fields (bridge-messages.ts:323-330). -/
def optStringField (m : List (String × JValue)) (field : String) :
    Option String :=
  match jLookup m field with
  | some (.jstr s) => some s
  | _ => none

/-- `requireMetadata` (bridge-messages.ts:308-332).  Note the source
requires `tenantId`, `userId` *and* `teamsCallId` via `requireString`. -/
def requireMetadata (m : List (String × JValue)) :
    Except String SessionMetadata :=
  match jLookup m "metadata" with
  | some (.jobj fields) => do
      let tenantId ← requireStringField fields "tenantId"
      let userId ← requireStringField fields "userId"
      let teamsCallId ← requireStringField fields "teamsCallId"
      .ok { tenantId := tenantId, userId := userId,
            teamsCallId := teamsCallId,
            displayName := optStringField fields "displayName",
            userPrincipalName := optStringField fields "userPrincipalName",
            phoneNumber := optStringField fields "phoneNumber" }
  | _ => .error "Missing or invalid metadata field"

/-- `AuthRequestMessage` (types.ts). -/
structure AuthRequestMessage where
  callId : String
  correlationId : String
  metadata : SessionMetadata
deriving DecidableEq, Repr

/-- `parseAuthRequest` (bridge-messages.ts:202-210). -/
def parseAuthRequest (m : List (String × JValue)) :
    Except String AuthRequestMessage :=
  do
    let callId ← requireStringField m "callId"
    let correlationId ← requireStringField m "correlationId"
    let metadata ← requireMetadata m
    .ok { callId := callId, correlationId := correlationId,
          metadata := metadata }

/-- `requireDirection` (bridge-messages.ts:242-257). -/
def requireDirection (m : List (String × JValue)) :
    Except String CallDirection :=
  match jLookup m "direction" with
  | some (.jstr "inbound") => .ok .inbound
  | some (.jstr "outbound") => .ok .outbound
  | _ => .error "Invalid direction field"

/-- `SessionStartMessage` (types.ts). -/
structure SessionStartMessage where
  callId : String
  direction : CallDirection
  metadata : SessionMetadata
deriving DecidableEq, Repr

/-- `parseSessionStart` (bridge-messages.ts:112-126). -/
def parseSessionStart (m : List (String × JValue)) :
    Except String SessionStartMessage :=
  do
    let callId ← requireStringField m "callId"
    let direction ← requireDirection m
    let metadata ← requireMetadata m
    .ok { callId := callId, direction := direction, metadata := metadata }

/-! ### Authorizer (`src/bridge.ts`, `authorizeCall`, lines 723-788) -/

/-- `authorization.mode` (config.ts:141); `openAll` stands for the config
value `open` (a Lean keyword) and `tenantOnly` for `tenant-only`. -/
inductive AuthMode where
  | disabled
  | openAll
  | allowlist
  | tenantOnly
deriving DecidableEq, Repr

/-- `AuthorizationConfigSchema` (config.ts:139-148). -/
structure AuthorizationConfig where
  mode : AuthMode
  allowFrom : List String
  allowedTenants : List String
  allowPstn : Bool
deriving DecidableEq, Repr

/-- The `strategy` token of an authorization decision. -/
inductive AuthStrategy where
  | disabled
  | openAll
  | allowlist
  | tenantOnly
  | pstnBlocked
  | validationFailed
deriving DecidableEq, Repr

/-- `AuthResult` (types.ts); the human-readable `reason` is omitted, the
claims only concern `authorized` and `strategy`. -/
structure AuthResult where
  authorized : Bool
  strategy : AuthStrategy
deriving DecidableEq, Repr

/-- JS truthiness of an optional string: `undefined` and `""` are falsy. -/
def strTruthy : Option String → Bool
  | none => false
  | some s => !(s == "")

/-- JS `String.prototype.toLowerCase()` restricted to ASCII case folding
(user ids are GUIDs and UPNs in this protocol). -/
def strLower (s : String) : String :=
  String.mk (s.toList.map Char.toLower)

/-- One allowlist entry check (bridge.ts:778-781): the lowercased entry
must equal the lowercased `userId` or the lowercased `userPrincipalName`. -/
def allowEntryMatches (userIdLower : String) (upnLower : Option String)
    (entry : String) : Bool :=
  let normalized := strLower entry
  normalized == userIdLower ||
    (match upnLower with
     | some u => normalized == u
     | none => false)

/-- `authorizeCall` (bridge.ts:723-788).  The `!metadata.tenantId` and
`!metadata.userId` truthiness checks reject the empty string, which is how
"missing" ids appear after parsing (the parser only admits strings). -/
def authorizeCall (cfg : AuthorizationConfig) (md : SessionMetadata) :
    AuthResult :=
  if md.tenantId == "" || md.userId == "" then
    ⟨false, .validationFailed⟩
  else if (!(cfg.mode == .disabled)) && strTruthy md.phoneNumber &&
      !cfg.allowPstn then
    ⟨false, .pstnBlocked⟩
  else
    match cfg.mode with
    | .disabled => ⟨false, .disabled⟩
    | .openAll => ⟨true, .openAll⟩
    | .tenantOnly =>
        if cfg.allowedTenants = [] then ⟨false, .tenantOnly⟩
        else if md.tenantId ∈ cfg.allowedTenants then ⟨true, .tenantOnly⟩
        else ⟨false, .tenantOnly⟩
    | .allowlist =>
        if cfg.allowFrom = [] then ⟨false, .allowlist⟩
        else
          let userIdLower := strLower md.userId
          let upnLower := md.userPrincipalName.map strLower
          if cfg.allowFrom.any (allowEntryMatches userIdLower upnLower) then
            ⟨true, .allowlist⟩
          else ⟨false, .allowlist⟩

/-! ### Session registry and outbound-call coordination (`src/bridge.ts`) -/

/-- Stored `BridgeSession` state (bridge.ts:829-857), reduced to the
fields the claims observe; `wsId` identifies the owning connection. -/
structure BridgeSessionState where
  wsId : ℕ
  direction : CallDirection
  metadata : SessionMetadata
  sttConnected : Bool
deriving DecidableEq, Repr

/-- A `PendingCall` entry (bridge.ts:88-96), reduced to its key data. -/
structure PendingCall where
  callId : String
  target : String
deriving DecidableEq, Repr

/-- `sessions` and `pendingCalls` maps of `TeamsAudioBridge`
(bridge.ts:130-131). -/
structure BridgeState where
  sessions : List (String × BridgeSessionState)
  pendingCalls : List (String × PendingCall)
deriving DecidableEq, Repr

/-- Observable resolution of a pending outbound call: `resolve` with
`answered` or `reject` with an error message. -/
inductive CallResolution where
  | answered (callId : String)
  | rejected (error : String)
deriving DecidableEq, Repr

/-- `call_status` values (types.ts). -/
inductive CallStatusKind where
  | ringing
  | answered
  | failed
  | busy
  | noAnswer
deriving DecidableEq, Repr

/-- Wire spelling of a call status (for the fallback error string). -/
def callStatusText : CallStatusKind → String
  | .ringing => "ringing"
  | .answered => "answered"
  | .failed => "failed"
  | .busy => "busy"
  | .noAnswer => "no-answer"

/-- `handleSessionStart` (bridge.ts:574-632).  `sttOutcome` is the STT
oracle: `none` when no STT provider is configured, `some b` for a provider
whose `connect()` succeeds iff `b`.  On failure the session is not stored
and a pending outbound call is rejected; on success the session is stored
and a pending call with direction `outbound` resolves `answered`. -/
def handleSessionStart (sttOutcome : Option Bool) (st : BridgeState)
    (wsId : ℕ) (callId : String) (direction : CallDirection)
    (md : SessionMetadata) : BridgeState × List CallResolution :=
  match sttOutcome with
  | some false =>
      match assocGet st.pendingCalls callId with
      | some _ =>
          ({ st with pendingCalls := assocDelete st.pendingCalls callId },
            [.rejected "STT connection failed"])
      | none => (st, [])
  | _ =>
      let sess : BridgeSessionState :=
        { wsId := wsId, direction := direction, metadata := md,
          sttConnected := sttOutcome.isSome }
      let st1 : BridgeState :=
        { st with sessions := assocSet st.sessions callId sess }
      match assocGet st1.pendingCalls callId with
      | some _ =>
          if direction = .outbound then
            ({ st1 with pendingCalls := assocDelete st1.pendingCalls callId },
              [.answered callId])
          else (st1, [])
      | none => (st1, [])

/-- `handleCallStatus` (bridge.ts:634-654). -/
def handleCallStatus (st : BridgeState) (callId : String)
    (status : CallStatusKind) (error : Option String) :
    BridgeState × List CallResolution :=
  match assocGet st.pendingCalls callId with
  | none => (st, [])
  | some _ =>
      match status with
      | .answered => (st, [])
      | .ringing => (st, [])
      | s =>
          let fallback := "Call " ++ callStatusText s
          let msg :=
            match error with
            | some e => if e == "" then fallback else e
            | none => fallback
          ({ st with pendingCalls := assocDelete st.pendingCalls callId },
            [.rejected msg])

/-- The ring-deadline timer registered by `initiateCall`
(bridge.ts:345-348) firing: possible only while the entry is still
pending (resolution clears the timer). -/
def pendingTimeoutFires (st : BridgeState) (callId : String) :
    BridgeState × List CallResolution :=
  match assocGet st.pendingCalls callId with
  | some _ =>
      ({ st with pendingCalls := assocDelete st.pendingCalls callId },
        [.rejected "Call timeout - no response from gateway"])
  | none => (st, [])

/-- `initiateCall` registering the pending entry (bridge.ts:350-357). -/
def registerPendingCall (st : BridgeState) (callId target : String) :
    BridgeState :=
  { st with pendingCalls :=
      assocSet st.pendingCalls callId { callId := callId, target := target } }

/-- `maxConcurrentCalls` schema default (config.ts:333 and 400). -/
def defaultMaxConcurrentCalls : ℕ := 5

/-- The `session_start` path of `handleMessage` (bridge.ts:534-543 then
574-632): the callId is validated, then `handleSessionStart` runs.  State
component only (resolutions dropped), for folding message sequences. -/
def sessionStartStep (sttOutcome : Option Bool) (st : BridgeState)
    (m : ℕ × String × CallDirection × SessionMetadata) : BridgeState :=
  if validateCallId m.2.1 then
    (handleSessionStart sttOutcome st m.1 m.2.1 m.2.2.1 m.2.2.2).1
  else st

/-- `handleAudioIn` (bridge.ts:656-690), as the buffer the STT adapter
observes: `none` when the frame is dropped (unknown call, non-owning
connection, invalid size, or STT not connected), otherwise the
24 kHz resampled buffer passed to `sttSession.sendAudio`. -/
def handleAudioInObserved (dither : ℕ → ℚ) (st : BridgeState) (wsId : ℕ)
    (callId : String) (pcm16k : List ℕ) : Option (List ℕ) :=
  match assocGet st.sessions callId with
  | none => none
  | some sess =>
      if !(sess.wsId == wsId) then none
      else if !validateTeamsAudioFrame pcm16k then none
      else if sess.sttConnected then some (resample16kTo24k dither pcm16k)
      else none

/-! ### Conversation transcript (`src/conversation-session-manager.ts`) -/

/-- Speaker of a transcript entry. -/
inductive Speaker where
  | user
  | bot
deriving DecidableEq, Repr

/-- `TranscriptEntry` (conversation-session-manager.ts:15-22). -/
structure TranscriptEntry where
  speaker : Speaker
  text : String
  timestamp : ℕ
deriving DecidableEq, Repr

/-- `maxTranscriptEntries` default (conversation-session-manager.ts:87). -/
def defaultMaxTranscriptEntries : ℕ := 50

/-- `addTranscript` (conversation-session-manager.ts:146-170): push, then
trim the oldest entries when the log exceeds `maxEntries`. -/
def addTranscript (maxEntries : ℕ) (transcript : List TranscriptEntry)
    (e : TranscriptEntry) : List TranscriptEntry :=
  let t := transcript ++ [e]
  if maxEntries < t.length then t.drop (t.length - maxEntries) else t

/-- The direct `session.transcript.push(...)` of the user turn in
`streamResponse` (streaming-voice-controller.ts:213-217): no trimming. -/
def streamResponseUserPush (transcript : List TranscriptEntry)
    (e : TranscriptEntry) : List TranscriptEntry :=
  transcript ++ [e]

/-! ### Chunked voice controller (`src/streaming-voice-controller.ts`)
and the barge-in handler (`src/runtime.ts`, lines 368-388) -/

/-- Controller `StreamingState` (streaming-voice-controller.ts:80). -/
inductive StreamingState where
  | idle
  | streaming
  | draining
deriving DecidableEq, Repr

/-- Settlement outcome of one pending TTS job: the `.then` branch receives
synthesized frames, the `.catch` branch an error which is or is not a
cancellation (streaming-voice-controller.ts:391-408). -/
inductive TTSOutcome where
  | success (frames : List Frame)
  | failure (isCancellation : Bool)
deriving DecidableEq, Repr

/-- A pending TTS promise together with its chunk sequence id. -/
structure PendingJob where
  seqId : ℕ
  outcome : TTSOutcome
deriving DecidableEq, Repr

/-- Per-response state of `StreamingVoiceController`
(streaming-voice-controller.ts:117-137).  The cancellation token is
`some aborted?`; `none` models the field being `null`. -/
structure ControllerState where
  state : StreamingState
  isPlayingAudio : Bool
  cancellationToken : Option Bool
  currentCallId : Option String
  audioQueue : AudioQueue
  pendingSentenceCount : ℕ
  pendingTTS : List PendingJob
deriving DecidableEq, Repr

/-- Messages sent to the gateway that the claims observe. -/
inductive GatewayMsg where
  | flush (callId : String)
deriving DecidableEq, Repr

/-- Settlement of one pending TTS promise (streaming-voice-controller.ts:
391-408): the success continuation returns early when the token is
cancelled, otherwise enqueues; the failure continuation skips the seq
unless the error is a cancellation. -/
def settleJob (st : ControllerState) (j : PendingJob) : ControllerState :=
  match j.outcome with
  | .success frames =>
      match st.cancellationToken with
      | some true => st
      | _ => { st with audioQueue := st.audioQueue.enqueue j.seqId frames }
  | .failure isCancel =>
      if isCancel then st
      else { st with audioQueue := st.audioQueue.skip j.seqId }

/-- `await Promise.allSettled([...this.pendingTTSPromises])`. -/
def settleAll (st : ControllerState) : ControllerState :=
  st.pendingTTS.foldl settleJob st

/-- `cancel` (streaming-voice-controller.ts:501-524): abort the token,
clear the queue, send one flush for the current call, await settlement,
reset state. -/
def cancel (st : ControllerState) : ControllerState × List GatewayMsg :=
  if st.state = .idle then (st, [])
  else
    let st1 : ControllerState :=
      { st with cancellationToken := st.cancellationToken.map (fun _ => true) }
    let st2 : ControllerState := { st1 with audioQueue := st1.audioQueue.clear }
    let msgs : List GatewayMsg :=
      match st2.currentCallId with
      | some cid => [.flush cid]
      | none => []
    let st3 := settleAll st2
    let st4 : ControllerState :=
      { st3 with
        pendingTTS := []
        state := StreamingState.idle
        isPlayingAudio := false
        pendingSentenceCount := 0 }
    (st4, msgs)

/-- `shouldIgnoreBargeIn` (streaming-voice-controller.ts:159-161). -/
def shouldIgnoreBargeIn (st : ControllerState) : Bool :=
  st.isPlayingAudio

/-- `userSpeakingHandler` (runtime.ts:368-388) in chunked mode (a
streaming controller is present, no realtime agent): ignore the event
when `shouldIgnoreBargeIn` reports the bot is playing audio, otherwise
cancel the current response. -/
def userSpeakingHandler (st : ControllerState) :
    ControllerState × List GatewayMsg :=
  if shouldIgnoreBargeIn st then (st, [])
  else cancel st

/-- Spec-side membership for the allowlist decision (§4.13): the
lowercased entry equals the lowercased `userId` or the lowercased
`userPrincipalName`. -/
def specAllowlisted (allowFrom : List String) (md : SessionMetadata) : Prop :=
  ∃ entry ∈ allowFrom,
    strLower entry = strLower md.userId ∨
      md.userPrincipalName.map strLower = some (strLower entry)




/-! ### Chunk-completion runs over the queue (for P4/C3) -/

/-- One settled TTS job for chunk `s` applied to the queue: chunks marked
skipped (TTS failure or back-pressure drop) call `skip`, the rest enqueue
their synthesized frames (streaming-voice-controller.ts:371-415,
streaming-tts-service.ts). -/
def applyChunkOp (chunks : ℕ → List Frame) (skippedChunk : ℕ → Bool)
    (q : AudioQueue) (s : ℕ) : AudioQueue :=
  if skippedChunk s then q.skip s else q.enqueue s (chunks s)

/-- Run the per-chunk completions in the given order over a fresh queue. -/
def runChunkOps (chunks : ℕ → List Frame) (skippedChunk : ℕ → Bool)
    (minJitter : ℕ) (order : List ℕ) : AudioQueue :=
  order.foldl (applyChunkOp chunks skippedChunk) (AudioQueue.mk0 minJitter)

/-- Spec-side result (P4): concatenation of the frames of the non-skipped
chunks in chunk-seq order. -/
def specConcat (chunks : ℕ → List Frame) (skippedChunk : ℕ → Bool)
    (n : ℕ) : List Frame :=
  ((List.range n).map
    (fun s => if skippedChunk s then [] else chunks s)).flatten

/-- Queue invariant after the completions of the chunk set `done` ran in
some order. -/
def OpsInv (chunks : ℕ → List Frame) (skippedChunk : ℕ → Bool)
    (done : List ℕ) (q : AudioQueue) : Prop :=
  q.framesBySequence.Perm
      ((done.filter (fun s => !skippedChunk s)).map (fun s => (s, chunks s)))
    ∧ (∀ j ∈ q.skippedSequences,
        skippedChunk j = true ∧ j ∈ done ∧ q.nextDequeueSequence < j)
    ∧ (∀ j < q.nextDequeueSequence, j ∈ done ∧ skippedChunk j = true)
    ∧ (∀ j ∈ done, skippedChunk j = true →
        (j ∈ q.skippedSequences ∨ j < q.nextDequeueSequence))
    ∧ q.jitterBufferFilled = false
    ∧ q.skippedSequences.Nodup

/-- Queue invariant while draining: `ps` is the remaining payload in
ascending chunk-seq order. -/
def DrainInv (ps : List (ℕ × List Frame)) (q : AudioQueue) : Prop :=
  q.framesBySequence.Perm ps
    ∧ (ps.map Prod.fst).Pairwise (· < ·)
    ∧ (∀ p ∈ ps, p.2 ≠ [])
    ∧ (∀ k ∈ ps.map Prod.fst, q.nextDequeueSequence ≤ k)
    ∧ (∀ j, q.nextDequeueSequence ≤ j → j ∉ ps.map Prod.fst →
        (∃ k ∈ ps.map Prod.fst, j < k) → j ∈ q.skippedSequences)
    ∧ (∀ j ∈ q.skippedSequences,
        q.nextDequeueSequence ≤ j ∧ j ∉ ps.map Prod.fst)
    ∧ q.skippedSequences.Nodup

end TeamsBridge

deriving instance DecidableEq for Except

namespace TeamsBridge

/-! ## Theorems

Regression checks mirroring the repository tests
(`__tests__`, audio-queue suite), then the claims. -/

example :
    ((((AudioQueue.mk0 1).skip 0).enqueue 1 [[1]]).dequeueNext).1 = some [1] := by
  decide

example :
    (drainFuel 3 ((((AudioQueue.mk0 1).enqueue 0 [[1], [2]]).skip 1).enqueue 2
      [[3]])) = [[1], [2], [3]] := by
  decide

/-! ### Association-list helper lemmas -/

theorem assocGet_assocDelete_self {β : Type} (m : List (String × β))
    (k : String) : assocGet (assocDelete m k) k = none := by
  induction m with
  | nil => rfl
  | cons p t ih =>
      by_cases h : p.1 = k
      · simp only [assocDelete, assocGet] at ih ⊢
        simp [h, ih]
      · simp only [assocDelete, assocGet] at ih ⊢
        simp [h, ih]

/-! ### Claim C10 (resampler frame length) -/

theorem writeInt16LE_length (v : ℤ) : (writeInt16LE v).length = 2 := rfl

theorem length_flatten_pairs {α : Type} (l : List α) (f : α → List ℕ)
    (h : ∀ x, (f x).length = 2) :
    ((l.map f).flatten).length = 2 * l.length := by
  induction l with
  | nil => simp
  | cons x t ih => simp [ih, h x]; ring

theorem resample16kTo24k_length (dither : ℕ → ℚ) (input : List ℕ)
    (h : input.length = 640) :
    (resample16kTo24k dither input).length = 960 := by
  have hne : ¬input.length = 0 := by omega
  unfold resample16kTo24k
  rw [if_neg hne]
  rw [length_flatten_pairs _ _ (fun i => writeInt16LE_length _)]
  simp [h]

/-- Claim C10: an accepted inbound frame of exactly 640 bytes is resampled
to exactly one 960-byte 24 kHz buffer, and that buffer is what the STT
adapter observes in `handleAudioIn` (chunked mode); an empty input buffer
resamples to an empty output buffer. -/
theorem claim_C10_resampler_and_stt_observation (dither : ℕ → ℚ)
    (st : BridgeState) (wsId : ℕ) (callId : String) (pcm16k : List ℕ)
    (sess : BridgeSessionState)
    (hsess : assocGet st.sessions callId = some sess)
    (hws : sess.wsId = wsId)
    (hstt : sess.sttConnected = true)
    (hlen : pcm16k.length = 640) :
    handleAudioInObserved dither st wsId callId pcm16k
        = some (resample16kTo24k dither pcm16k)
      ∧ (resample16kTo24k dither pcm16k).length = 960
      ∧ resample16kTo24k dither [] = [] := by
  refine ⟨?_, resample16kTo24k_length dither pcm16k hlen, rfl⟩
  simp [handleAudioInObserved, hsess, hws, hstt, validateTeamsAudioFrame, hlen]

/-- Witness for C10 at a concrete state and a concrete 640-byte frame. -/
theorem claim_C10_witness :
    handleAudioInObserved (fun _ => 0)
        ⟨[("c1", ⟨7, CallDirection.inbound,
          ⟨"t", "u", "tc", none, none, none⟩, true⟩)], []⟩ 7 "c1"
        (List.replicate 640 0)
      = some (resample16kTo24k (fun _ => 0) (List.replicate 640 0)) := by
  have h := claim_C10_resampler_and_stt_observation (fun _ => 0)
    ⟨[("c1", ⟨7, CallDirection.inbound,
      ⟨"t", "u", "tc", none, none, none⟩, true⟩)], []⟩ 7 "c1"
    (List.replicate 640 0)
    ⟨7, CallDirection.inbound, ⟨"t", "u", "tc", none, none, none⟩, true⟩
    rfl rfl rfl (List.length_replicate 640 0)
  exact h.1

/-! ### Claim C9 (teamsCallId is in fact required by the parser) -/

/-- Claim C9 counterexample: an `auth_request` whose metadata carries
string `tenantId` and `userId` but omits `teamsCallId` does NOT parse —
`requireMetadata` (bridge-messages.ts:322) demands `teamsCallId` via
`requireString`, so parsing raises a `MessageParseError` (the
ProtocolError of the spec), contradicting the claim. -/
theorem claim_C9_counterexample :
    parseAuthRequest
      [("type", .jstr "auth_request"), ("callId", .jstr "call-1"),
       ("correlationId", .jstr "corr-1"),
       ("metadata", .jobj [("tenantId", .jstr "tenant-1"),
         ("userId", .jstr "user-1")])]
      = .error "Missing or invalid teamsCallId field" := by
  decide

/-- Claim C9 amended: `teamsCallId` is a required metadata field of
`auth_request` (types.ts:14 declares it non-optional and every
repository fixture supplies it): with string `callId`, `correlationId`,
`tenantId` and `userId` present, parsing succeeds exactly when
`teamsCallId` is also a string, and metadata omitting `teamsCallId`
fails with the `MessageParseError` for that field.  `displayName`,
`userPrincipalName` and `phoneNumber` remain optional. -/
theorem claim_C9_amended (m fields : List (String × JValue))
    (cid corr t u : String)
    (hcid : jLookup m "callId" = some (.jstr cid))
    (hcorr : jLookup m "correlationId" = some (.jstr corr))
    (hm : jLookup m "metadata" = some (.jobj fields))
    (ht : jLookup fields "tenantId" = some (.jstr t))
    (hu : jLookup fields "userId" = some (.jstr u)) :
    (∀ c, jLookup fields "teamsCallId" = some (.jstr c) →
        parseAuthRequest m = .ok ⟨cid, corr,
          ⟨t, u, c, optStringField fields "displayName",
            optStringField fields "userPrincipalName",
            optStringField fields "phoneNumber"⟩⟩)
      ∧ (jLookup fields "teamsCallId" = none →
          parseAuthRequest m
            = .error "Missing or invalid teamsCallId field") := by
  constructor
  · intro c hc
    simp only [parseAuthRequest, requireMetadata, requireStringField,
      hcid, hcorr, hm, ht, hu, hc]
    rfl
  · intro hc
    simp only [parseAuthRequest, requireMetadata, requireStringField,
      hcid, hcorr, hm, ht, hu, hc]
    rfl

/-- Witness for the amended C9 on a concrete full message. -/
theorem claim_C9_amended_witness :
    parseAuthRequest
        [("type", .jstr "auth_request"), ("callId", .jstr "call-1"),
         ("correlationId", .jstr "corr-1"),
         ("metadata", .jobj [("tenantId", .jstr "tenant-1"),
           ("userId", .jstr "user-1"),
           ("teamsCallId", .jstr "teams-call-1")])]
      = .ok ⟨"call-1", "corr-1",
          ⟨"tenant-1", "user-1", "teams-call-1", none, none, none⟩⟩ := by
  have h := claim_C9_amended
    [("type", .jstr "auth_request"), ("callId", .jstr "call-1"),
     ("correlationId", .jstr "corr-1"),
     ("metadata", .jobj [("tenantId", .jstr "tenant-1"),
       ("userId", .jstr "user-1"), ("teamsCallId", .jstr "teams-call-1")])]
    [("tenantId", .jstr "tenant-1"), ("userId", .jstr "user-1"),
     ("teamsCallId", .jstr "teams-call-1")]
    "call-1" "corr-1" "tenant-1" "user-1" rfl rfl rfl rfl rfl
  exact h.1 "teams-call-1" rfl

/-! ### Claim C2 (max concurrent calls) -/

/-- Claim C2 (code bug): `handleSessionStart` (bridge.ts:574-632) never
consults `maxConcurrentCalls` — the option is validated by the config
schema (config.ts:333, default 5) and documented in the README as "Max
simultaneous calls", but no code path enforces it.  Folding six
`session_start` messages with distinct valid call-ids over an empty
registry stores six sessions, exceeding the default maximum of five. -/
theorem claim_C2_max_concurrent_not_enforced :
    ((([(1, "c1", CallDirection.inbound,
          (⟨"t", "u", "tc", none, none, none⟩ : SessionMetadata)),
        (1, "c2", .inbound, ⟨"t", "u", "tc", none, none, none⟩),
        (1, "c3", .inbound, ⟨"t", "u", "tc", none, none, none⟩),
        (1, "c4", .inbound, ⟨"t", "u", "tc", none, none, none⟩),
        (1, "c5", .inbound, ⟨"t", "u", "tc", none, none, none⟩),
        (1, "c6", .inbound, ⟨"t", "u", "tc", none, none, none⟩)]
        : List (ℕ × String × CallDirection × SessionMetadata)).foldl
        (sessionStartStep none) ⟨[], []⟩).sessions.length = 6)
      ∧ defaultMaxConcurrentCalls < 6 := by
  decide

/-! ### Claim C5 (empty TTS output stalls the queue) -/

/-- Claim C5 (code bug): TTS success with an empty audio buffer produces
zero frames, so `enqueue(seq, [])` is a no-op (audio-queue.ts:78) and no
path marks the sequence skipped (streaming-voice-controller.ts:391-401
only skips on error).  With chunk 0 empty and chunk 1 carrying a frame,
`dequeueNext` returns `null` forever: `nextDequeueSequence` never
advances past 0 and the queued frame of chunk 1 is never delivered,
contradicting the spec's "Empty TTS output ... does not block the
queue" (even with the jitter gate satisfied via `minJitterFrames = 1`). -/
theorem claim_C5_empty_chunk_stalls_queue :
    ((((AudioQueue.mk0 1).enqueue 0 []).enqueue 1 [[7]]).dequeueNext.1 = none)
      ∧ drainFuel 5 (((AudioQueue.mk0 1).enqueue 0 []).enqueue 1 [[7]]) = []
      ∧ ((((AudioQueue.mk0 1).enqueue 0 []).enqueue 1
          [[7]]).dequeueNext.2.nextDequeueSequence = 0)
      ∧ ((((AudioQueue.mk0 1).enqueue 0 []).enqueue 1
          [[7]]).dequeueNext.2.dequeueNext.1 = none)
      ∧ (((AudioQueue.mk0 1).enqueue 0 []).enqueue 1 [[7]]).getDepth = 1 := by
  decide

/-! ### Claim C8 (outbound call resolution) -/

/-- Claim C8: with a pending outbound call registered for `callId`, a
`session_start` with matching call-id and direction `outbound` (and STT
not failing) resolves it `answered` and removes the pending entry; an
inbound `session_start` does not resolve it; a `call_status` of
`failed`, `busy` or `no-answer` rejects it carrying the error string
(or the `Call <status>` fallback when none); `ringing` and `answered`
statuses leave it untouched; the deadline timer firing rejects it with
the timeout error, removes the entry, and touches no session. -/
theorem claim_C8_outbound_call_resolution (st : BridgeState)
    (callId : String) (p : PendingCall) (wsId : ℕ) (md : SessionMetadata)
    (e : String) (s : CallStatusKind)
    (hpend : assocGet st.pendingCalls callId = some p)
    (hterm : s = .failed ∨ s = .busy ∨ s = .noAnswer)
    (he : e ≠ "") :
    (∀ stt : Option Bool, stt ≠ some false →
        (handleSessionStart stt st wsId callId .outbound md).2
            = [.answered callId]
          ∧ assocGet (handleSessionStart stt st wsId callId
              .outbound md).1.pendingCalls callId = none)
      ∧ (∀ stt : Option Bool, stt ≠ some false →
          (handleSessionStart stt st wsId callId .inbound md).2 = []
            ∧ (handleSessionStart stt st wsId callId
                .inbound md).1.pendingCalls = st.pendingCalls)
      ∧ handleCallStatus st callId s (some e)
          = ({ st with pendingCalls := assocDelete st.pendingCalls callId },
              [.rejected e])
      ∧ handleCallStatus st callId s none
          = ({ st with pendingCalls := assocDelete st.pendingCalls callId },
              [.rejected ("Call " ++ callStatusText s)])
      ∧ handleCallStatus st callId .ringing (some e) = (st, [])
      ∧ handleCallStatus st callId .answered (some e) = (st, [])
      ∧ pendingTimeoutFires st callId
          = ({ st with pendingCalls := assocDelete st.pendingCalls callId },
              [.rejected "Call timeout - no response from gateway"])
      ∧ (pendingTimeoutFires st callId).1.sessions = st.sessions := by
  refine ⟨?_, ?_, ?_, ?_, ?_, ?_, ?_, ?_⟩
  · intro stt hstt
    match stt with
    | none =>
        simp [handleSessionStart, hpend, assocGet_assocDelete_self]
    | some true =>
        simp [handleSessionStart, hpend, assocGet_assocDelete_self]
    | some false => exact absurd rfl hstt
  · intro stt hstt
    match stt with
    | none => simp [handleSessionStart, hpend]
    | some true => simp [handleSessionStart, hpend]
    | some false => exact absurd rfl hstt
  · rcases hterm with h | h | h <;>
      subst h <;> simp [handleCallStatus, hpend, he]
  · rcases hterm with h | h | h <;>
      subst h <;> simp [handleCallStatus, hpend, callStatusText]
  · simp [handleCallStatus, hpend]
  · simp [handleCallStatus, hpend]
  · simp [pendingTimeoutFires, hpend]
  · simp [pendingTimeoutFires, hpend]

/-- Witness for C8 at a concrete registry state. -/
theorem claim_C8_witness :
    (handleSessionStart none
        ⟨[], [("c1", ⟨"c1", "user-9"⟩)]⟩ 3 "c1" .outbound
        ⟨"t", "u", "tc", none, none, none⟩).2
      = [.answered "c1"] := by
  have h := claim_C8_outbound_call_resolution
    ⟨[], [("c1", ⟨"c1", "user-9"⟩)]⟩ "c1" ⟨"c1", "user-9"⟩ 3
    ⟨"t", "u", "tc", none, none, none⟩ "busy here" CallStatusKind.busy
    rfl (Or.inr (Or.inl rfl)) (by decide)
  exact (h.1 none (by simp)).1

/-! ### Claim C7 (transcript bound) -/

/-- Claim C7 (code bug): the user-turn append in `streamResponse`
(streaming-voice-controller.ts:213-217) pushes directly onto the
transcript without the `addTranscript` trim, so a transcript that already
holds 50 entries grows to 51 — exceeding the documented cap of
`defaultMaxTranscriptEntries = 50`.  The bot-turn path `addTranscript`
does trim (conversation-session-manager.ts:165-169). -/
theorem claim_C7_transcript_bound_violated :
    (streamResponseUserPush
        (List.replicate 50 (⟨Speaker.user, "hi", 0⟩ : TranscriptEntry))
        ⟨Speaker.user, "again", 1⟩).length = 51
      ∧ defaultMaxTranscriptEntries < 51
      ∧ (addTranscript defaultMaxTranscriptEntries
          (List.replicate 50 (⟨Speaker.user, "hi", 0⟩ : TranscriptEntry))
          ⟨Speaker.user, "again", 1⟩).length = 50 := by
  refine ⟨?_, by decide, ?_⟩
  · simp [streamResponseUserPush]
  · simp [addTranscript, defaultMaxTranscriptEntries]

/-! ### Claim C6 (authorizer decision table) -/

theorem allowEntryMatches_eq_true {u : String} {upn : Option String}
    {e : String} :
    allowEntryMatches u upn e = true ↔
      (strLower e = u ∨ upn = some (strLower e)) := by
  cases upn with
  | none => simp [allowEntryMatches]
  | some x =>
      simp only [allowEntryMatches, Bool.or_eq_true, beq_iff_eq,
        Option.some.injEq]
      constructor
      · rintro (h | h)
        · exact Or.inl h
        · exact Or.inr h.symm
      · rintro (h | h)
        · exact Or.inl h
        · exact Or.inr h.symm

/-- Claim C6: the authorizer implements the decision table.  With valid
metadata and the PSTN gate passed, `allowlist` mode accepts exactly the
callers whose lowercased `userId` or `userPrincipalName` appears
case-insensitively in `allow-from` (empty list rejects all, strategy
`allowlist`); in every mode except `disabled`, a non-empty `phoneNumber`
with `allow-pstn = false` is rejected with strategy `pstn-blocked`; empty
(missing) `tenantId` or `userId` is rejected with strategy
`validation-failed`. -/
theorem claim_C6_authorizer_decision_table (cfg : AuthorizationConfig)
    (md : SessionMetadata) :
    (md.tenantId = "" ∨ md.userId = "" →
        authorizeCall cfg md = ⟨false, .validationFailed⟩)
      ∧ (md.tenantId ≠ "" → md.userId ≠ "" → cfg.mode ≠ .disabled →
          strTruthy md.phoneNumber = true → cfg.allowPstn = false →
          authorizeCall cfg md = ⟨false, .pstnBlocked⟩)
      ∧ (md.tenantId ≠ "" → md.userId ≠ "" → cfg.mode = .allowlist →
          (strTruthy md.phoneNumber = false ∨ cfg.allowPstn = true) →
          ((authorizeCall cfg md).strategy = .allowlist
            ∧ ((authorizeCall cfg md).authorized = true ↔
                specAllowlisted cfg.allowFrom md)
            ∧ (cfg.allowFrom = [] →
                (authorizeCall cfg md).authorized = false))) := by
  refine ⟨?_, ?_, ?_⟩
  · intro h
    rcases h with h | h <;> simp [authorizeCall, h]
  · intro ht hu hm hp ha
    have hmode : (cfg.mode == AuthMode.disabled) = false := by
      cases hcm : cfg.mode <;> simp_all
    simp [authorizeCall, ht, hu, hmode, hp, ha]
  · intro ht hu hm hgate
    have hpstn :
        ((!(cfg.mode == AuthMode.disabled)) && strTruthy md.phoneNumber &&
          !cfg.allowPstn) = false := by
      rcases hgate with h | h <;> simp [h]
    have hred : authorizeCall cfg md =
        (if cfg.allowFrom = [] then ⟨false, .allowlist⟩
         else if cfg.allowFrom.any (allowEntryMatches (strLower md.userId)
            (md.userPrincipalName.map strLower)) then ⟨true, .allowlist⟩
         else ⟨false, .allowlist⟩) := by
      rcases hgate with h | h <;>
        simp [authorizeCall, ht, hu, h, hm, -List.any_eq_true]
    by_cases hψ : cfg.allowFrom = []
    · rw [hψ] at hred ⊢
      refine ⟨by simp [hred], ?_, fun _ => by simp [hred]⟩
      simp [hred, specAllowlisted]
    · rw [if_neg hψ] at hred
      refine ⟨?_, ?_, fun hc => absurd hc hψ⟩
      · rw [hred]; split <;> rfl
      · have hauth : (authorizeCall cfg md).authorized =
            cfg.allowFrom.any (allowEntryMatches (strLower md.userId)
              (md.userPrincipalName.map strLower)) := by
          rw [hred]; split <;> simp_all
        rw [hauth, List.any_eq_true]
        exact exists_congr fun x =>
          and_congr_right fun _ => allowEntryMatches_eq_true

/-- Witness for C6: each row of the decision table exercised concretely. -/
theorem claim_C6_witness :
    authorizeCall ⟨AuthMode.allowlist, ["USER-1"], [], false⟩
        ⟨"", "u", "tc", none, none, none⟩ = ⟨false, .validationFailed⟩
      ∧ authorizeCall ⟨AuthMode.openAll, [], [], false⟩
          ⟨"t", "u", "tc", none, none, some "+15550001"⟩
          = ⟨false, .pstnBlocked⟩
      ∧ (authorizeCall ⟨AuthMode.allowlist, ["USER-1"], [], false⟩
          ⟨"t", "uSer-1", "tc", none, none, none⟩).authorized = true := by
  refine ⟨(claim_C6_authorizer_decision_table _ _).1 (Or.inl rfl),
    (claim_C6_authorizer_decision_table _ _).2.1 (by decide) (by decide)
      (by decide) rfl rfl, ?_⟩
  have h := (claim_C6_authorizer_decision_table
      ⟨AuthMode.allowlist, ["USER-1"], [], false⟩
      ⟨"t", "uSer-1", "tc", none, none, none⟩).2.2 (by decide) (by decide)
      rfl (Or.inl rfl)
  exact h.2.1.mpr ⟨"USER-1", by simp, Or.inl (by decide)⟩

/-! ### Claim C1 (barge-in handler) -/

theorem skip_framesBySequence (q : AudioQueue) (s : ℕ) :
    (q.skip s).framesBySequence = q.framesBySequence := by
  unfold AudioQueue.skip
  split
  · rfl
  split
  · rfl
  · rfl

theorem settleJob_preserve (st : ControllerState) (j : PendingJob)
    (htok : st.cancellationToken = some true)
    (hfr : st.audioQueue.framesBySequence = []) :
    (settleJob st j).cancellationToken = some true
      ∧ (settleJob st j).audioQueue.framesBySequence = [] := by
  rcases j with ⟨seqId, outcome⟩
  cases outcome with
  | success frames =>
      simp [settleJob, htok, hfr]
  | failure isCancel =>
      cases isCancel with
      | true => simp [settleJob, htok, hfr]
      | false => simp [settleJob, skip_framesBySequence, htok, hfr]

theorem settleFold_preserve (jobs : List PendingJob) (st : ControllerState)
    (htok : st.cancellationToken = some true)
    (hfr : st.audioQueue.framesBySequence = []) :
    (jobs.foldl settleJob st).cancellationToken = some true
      ∧ (jobs.foldl settleJob st).audioQueue.framesBySequence = [] := by
  induction jobs generalizing st with
  | nil => exact ⟨htok, hfr⟩
  | cons j t ih =>
      have h := settleJob_preserve st j htok hfr
      exact ih (settleJob st j) h.1 h.2

theorem settleAll_preserve (st : ControllerState)
    (htok : st.cancellationToken = some true)
    (hfr : st.audioQueue.framesBySequence = []) :
    (settleAll st).cancellationToken = some true
      ∧ (settleAll st).audioQueue.framesBySequence = []
      ∧ (settleAll st).audioQueue.getDepth = 0 := by
  have h := settleFold_preserve st.pendingTTS st htok hfr
  refine ⟨h.1, h.2, ?_⟩
  have h2 : (settleAll st).audioQueue.framesBySequence = [] := h.2
  simp [AudioQueue.getDepth, h2]

/-- Claim C1 counterexample: an `onUserSpeaking` event arriving while
`isPlayingAudio` is `true` (mid-playout, active response, unaborted
token, one queued frame) is IGNORED by `userSpeakingHandler`
(runtime.ts:379-384, the `shouldIgnoreBargeIn` echo-cancellation guard):
the state is unchanged — the token is not aborted, the queue keeps its
frame — and no flush is sent, contradicting the claim. -/
theorem claim_C1_counterexample :
    userSpeakingHandler
        ⟨.streaming, true, some false, some "call-1",
          (AudioQueue.mk0 25).enqueue 0 [[0]], 1, []⟩
      = (⟨.streaming, true, some false, some "call-1",
          (AudioQueue.mk0 25).enqueue 0 [[0]], 1, []⟩, [])
     ∧ ((userSpeakingHandler
        ⟨.streaming, true, some false, some "call-1",
          (AudioQueue.mk0 25).enqueue 0 [[0]], 1, []⟩).1.audioQueue.getDepth
        = 1) := by
  decide

/-- Claim C1 amended: the `userSpeakingHandler` barge-in condition is
inverted relative to the claim — an `onUserSpeaking` event cancels the
current response exactly when `isPlayingAudio` is FALSE (and the
controller is not idle); it is ignored while `isPlayingAudio` is true.
When it does cancel: the cancellation token is aborted, the audio queue
holds no frames after the pending TTS jobs settle, exactly one flush is
sent to the gateway, and the controller returns to idle. -/
theorem claim_C1_amended (st : ControllerState) (cid : String) (b : Bool)
    (hplay : st.isPlayingAudio = false)
    (hstate : st.state ≠ .idle)
    (hcid : st.currentCallId = some cid)
    (htok : st.cancellationToken = some b) :
    (userSpeakingHandler st).2 = [.flush cid]
      ∧ (userSpeakingHandler st).1.cancellationToken = some true
      ∧ (userSpeakingHandler st).1.audioQueue.framesBySequence = []
      ∧ (userSpeakingHandler st).1.audioQueue.getDepth = 0
      ∧ (userSpeakingHandler st).1.state = .idle
      ∧ (userSpeakingHandler st).1.isPlayingAudio = false := by
  have hhandler : userSpeakingHandler st = cancel st := by
    simp [userSpeakingHandler, shouldIgnoreBargeIn, hplay]
  rw [hhandler]
  unfold cancel
  rw [if_neg hstate]
  simp only [hcid, htok]
  refine ⟨trivial, ?_, ?_, ?_, trivial, trivial⟩
  · exact (settleAll_preserve _ (by simp) rfl).1
  · exact (settleAll_preserve _ (by simp) rfl).2.1
  · exact (settleAll_preserve _ (by simp) rfl).2.2

/-- Witness for the amended C1 at a concrete non-playing state. -/
theorem claim_C1_amended_witness :
    (userSpeakingHandler
        ⟨.streaming, false, some false, some "call-2",
          (AudioQueue.mk0 25).enqueue 0 [[0]], 1,
          [⟨1, .success [[5]]⟩, ⟨2, .failure false⟩]⟩).2
      = [.flush "call-2"] :=
  (claim_C1_amended
    ⟨.streaming, false, some false, some "call-2",
      (AudioQueue.mk0 25).enqueue 0 [[0]], 1,
      [⟨1, .success [[5]]⟩, ⟨2, .failure false⟩]⟩
    "call-2" false rfl (by decide) rfl rfl).1

/-! ### Claim C4 (jitter-gate dual trigger and persistence) -/

theorem cjb_map (q : AudioQueue) :
    (q.checkJitterBuffer).2.framesBySequence = q.framesBySequence := by
  simp only [AudioQueue.checkJitterBuffer]
  split
  · rfl
  split
  · rfl
  split <;> (try split) <;> rfl

theorem cjb_filled_eq (q : AudioQueue) :
    (q.checkJitterBuffer).2.jitterBufferFilled = (q.checkJitterBuffer).1 := by
  by_cases h1 : q.jitterBufferFilled = true
  · simp [AudioQueue.checkJitterBuffer, h1]
  · have hf : q.jitterBufferFilled = false := by simpa using h1
    by_cases h2 : q.minJitterFrames ≤
        (q.framesBySequence.map (fun p => p.2.length)).sum
    · simp [AudioQueue.checkJitterBuffer, AudioQueue.getDepth, hf, h2]
    · rcases hm : mapGet q.framesBySequence
          (advanceSkipped q.nextDequeueSequence q.skippedSequences).1
          with _ | (_ | ⟨f, rest⟩)
      · simp [AudioQueue.checkJitterBuffer, AudioQueue.getDepth, hf, h2, hm]
      · simp [AudioQueue.checkJitterBuffer, AudioQueue.getDepth, hf, h2, hm]
      · simp [AudioQueue.checkJitterBuffer, AudioQueue.getDepth, hf, h2, hm]

theorem cjb_true_iff (q : AudioQueue) :
    (q.checkJitterBuffer).1 = true ↔
      (q.jitterBufferFilled = true ∨ q.minJitterFrames ≤ q.getDepth ∨
        ∃ l, mapGet q.framesBySequence
            (advanceSkipped q.nextDequeueSequence q.skippedSequences).1
          = some l ∧ l ≠ []) := by
  by_cases h1 : q.jitterBufferFilled = true
  · simp [AudioQueue.checkJitterBuffer, h1]
  · have hf : q.jitterBufferFilled = false := by simpa using h1
    by_cases h2 : q.minJitterFrames ≤
        (q.framesBySequence.map (fun p => p.2.length)).sum
    · simp [AudioQueue.checkJitterBuffer, AudioQueue.getDepth, hf, h2]
    · rcases hm : mapGet q.framesBySequence
          (advanceSkipped q.nextDequeueSequence q.skippedSequences).1
          with _ | (_ | ⟨f, rest⟩)
      · simp [AudioQueue.checkJitterBuffer, AudioQueue.getDepth, hf, h2, hm]
      · simp [AudioQueue.checkJitterBuffer, AudioQueue.getDepth, hf, h2, hm]
      · simp [AudioQueue.checkJitterBuffer, AudioQueue.getDepth, hf, h2, hm]

theorem dequeueNext_none_of_gate (q : AudioQueue)
    (h : (q.checkJitterBuffer).1 = false) : q.dequeueNext.1 = none := by
  simp [AudioQueue.dequeueNext, h]

theorem dequeueNext_gate_of_some (q : AudioQueue)
    (h : q.dequeueNext.1.isSome = true) : (q.checkJitterBuffer).1 = true := by
  by_contra hne
  have hf : (q.checkJitterBuffer).1 = false := by
    cases hb : (q.checkJitterBuffer).1
    · rfl
    · exact absurd hb hne
  rw [dequeueNext_none_of_gate q hf] at h
  simp at h

theorem dequeueNext_snd_filled (q : AudioQueue)
    (h : (q.checkJitterBuffer).1 = true) :
    q.dequeueNext.2.jitterBufferFilled = true := by
  have hf : (q.checkJitterBuffer).2.jitterBufferFilled = true := by
    rw [cjb_filled_eq, h]
  simp only [AudioQueue.dequeueNext]
  rw [if_neg (by simp [h])]
  split
  · exact hf
  · exact hf
  · split
    · exact hf
    · exact hf

theorem enqueue_filled (q : AudioQueue) (s : ℕ) (fs : List Frame) :
    (q.enqueue s fs).jitterBufferFilled = q.jitterBufferFilled := by
  simp only [AudioQueue.enqueue]
  split
  · rfl
  split <;> rfl

theorem skip_filled (q : AudioQueue) (s : ℕ) :
    (q.skip s).jitterBufferFilled = q.jitterBufferFilled := by
  unfold AudioQueue.skip
  split
  · rfl
  split
  · rfl
  · rfl

/-- Claim C4: `dequeueNext` delivers a frame only when the dual jitter
trigger is satisfied — the total queued frame count reaches
`minJitterFrames` OR a frame is present for the (skip-advanced) next
expected sequence id OR the gate was already open; when neither trigger
holds and the gate is closed it returns `none`; a successful dequeue
leaves the gate open, and `enqueue`, `skip` and `dequeueNext` never
close an open gate — only `clear`/`reset` do. -/
theorem claim_C4_jitter_dual_trigger (q : AudioQueue) (s : ℕ)
    (fs : List Frame) :
    (q.dequeueNext.1.isSome = true →
        (q.jitterBufferFilled = true ∨ q.minJitterFrames ≤ q.getDepth ∨
          ∃ l, mapGet q.framesBySequence
              (advanceSkipped q.nextDequeueSequence q.skippedSequences).1
            = some l ∧ l ≠ []))
      ∧ (q.jitterBufferFilled = false → q.getDepth < q.minJitterFrames →
          (∀ l, mapGet q.framesBySequence
              (advanceSkipped q.nextDequeueSequence q.skippedSequences).1
            = some l → l = []) →
          q.dequeueNext.1 = none)
      ∧ (q.dequeueNext.1.isSome = true →
          q.dequeueNext.2.jitterBufferFilled = true)
      ∧ (q.jitterBufferFilled = true →
          (q.enqueue s fs).jitterBufferFilled = true)
      ∧ (q.jitterBufferFilled = true →
          (q.skip s).jitterBufferFilled = true)
      ∧ (q.jitterBufferFilled = true →
          q.dequeueNext.2.jitterBufferFilled = true)
      ∧ q.clear.jitterBufferFilled = false
      ∧ q.reset.jitterBufferFilled = false := by
  refine ⟨?_, ?_, ?_, ?_, ?_, ?_, rfl, rfl⟩
  · intro h
    exact (cjb_true_iff q).mp (dequeueNext_gate_of_some q h)
  · intro h1 h2 h3
    apply dequeueNext_none_of_gate
    cases hb : (q.checkJitterBuffer).1
    · rfl
    · exfalso
      rcases (cjb_true_iff q).mp hb with h | h | ⟨l, hl, hne⟩
      · rw [h1] at h
        exact Bool.false_ne_true h
      · omega
      · exact hne (h3 l hl)
  · intro h
    exact dequeueNext_snd_filled q (dequeueNext_gate_of_some q h)
  · intro h
    rw [enqueue_filled, h]
  · intro h
    rw [skip_filled, h]
  · intro h
    have : (q.checkJitterBuffer).1 = true := by
      rw [cjb_true_iff]
      exact Or.inl h
    exact dequeueNext_snd_filled q this

/-- Witness for C4 at concrete queue states. -/
theorem claim_C4_witness :
    ((((AudioQueue.mk0 3).enqueue 0 [[1]]).dequeueNext.1.isSome = true
        → ((((AudioQueue.mk0 3).enqueue 0 [[1]]).jitterBufferFilled = true)
          ∨ (((AudioQueue.mk0 3).enqueue 0 [[1]]).minJitterFrames
              ≤ ((AudioQueue.mk0 3).enqueue 0 [[1]]).getDepth)
          ∨ ∃ l, mapGet ((AudioQueue.mk0 3).enqueue 0 [[1]]).framesBySequence
              (advanceSkipped
                ((AudioQueue.mk0 3).enqueue 0 [[1]]).nextDequeueSequence
                ((AudioQueue.mk0 3).enqueue 0 [[1]]).skippedSequences).1
              = some l ∧ l ≠ []))
      ∧ ((((AudioQueue.mk0 3).enqueue 0 [[1]]).jitterBufferFilled = true)
          → ((((AudioQueue.mk0 3).enqueue 0 [[1]]).enqueue 1
              [[2]]).jitterBufferFilled = true))) :=
  ⟨(claim_C4_jitter_dual_trigger ((AudioQueue.mk0 3).enqueue 0 [[1]]) 1
      [[2]]).1,
    (claim_C4_jitter_dual_trigger ((AudioQueue.mk0 3).enqueue 0 [[1]]) 1
      [[2]]).2.2.2.1⟩

/-! ### Claim C3: association-map and advance lemmas -/

theorem mapGet_nil (k : ℕ) : mapGet [] k = none := rfl

theorem mapGet_cons_self (k : ℕ) (v : List Frame)
    (m : List (ℕ × List Frame)) : mapGet ((k, v) :: m) k = some v := by
  simp [mapGet]

theorem mapGet_eq_none_iff (m : List (ℕ × List Frame)) (k : ℕ) :
    mapGet m k = none ↔ k ∉ m.map Prod.fst := by
  induction m with
  | nil => simp [mapGet]
  | cons p t ih =>
      rcases p with ⟨k', v'⟩
      by_cases h : k' = k
      · subst h
        rw [mapGet_cons_self]
        simp
      · have hstep : mapGet ((k', v') :: t) k = mapGet t k := by
          simp only [mapGet]
          rw [List.find?_cons_of_neg]
          simp [h]
        rw [hstep, ih]
        simp only [List.map_cons, List.mem_cons, not_or]
        constructor
        · intro hn
          exact ⟨fun he => h he.symm, hn⟩
        · rintro ⟨-, hn⟩
          exact hn

theorem mapGet_eq_some_iff (m : List (ℕ × List Frame)) (k : ℕ)
    (v : List Frame) (hnd : (m.map Prod.fst).Nodup) :
    mapGet m k = some v ↔ (k, v) ∈ m := by
  induction m with
  | nil => simp [mapGet]
  | cons p t ih =>
      rcases p with ⟨k', v'⟩
      simp only [List.map_cons, List.nodup_cons] at hnd
      by_cases h : k' = k
      · subst h
        rw [mapGet_cons_self]
        constructor
        · intro hv
          have hv' : v' = v := by injection hv
          subst hv'
          exact List.mem_cons_self _ _
        · intro hmem
          rcases List.mem_cons.mp hmem with he | hmem
          · injection he with h1 h2
            subst h2
            rfl
          · exact absurd (List.mem_map_of_mem Prod.fst hmem) hnd.1
      · have hstep : mapGet ((k', v') :: t) k = mapGet t k := by
          simp only [mapGet]
          rw [List.find?_cons_of_neg]
          simp [h]
        rw [hstep, ih hnd.2]
        simp only [List.mem_cons, Prod.mk.injEq]
        constructor
        · exact Or.inr
        · rintro (⟨hk, -⟩ | hmem)
          · exact absurd hk.symm h
          · exact hmem

theorem mapGet_perm (m ps : List (ℕ × List Frame)) (h : m.Perm ps)
    (hnd : (ps.map Prod.fst).Nodup) (k : ℕ) :
    mapGet m k = mapGet ps k := by
  have hnd' : (m.map Prod.fst).Nodup := ((h.map Prod.fst).nodup_iff).mpr hnd
  rcases hg : mapGet ps k with _ | v
  · rw [mapGet_eq_none_iff] at hg ⊢
    intro hk
    exact hg (((h.map Prod.fst).mem_iff).mp hk)
  · rw [mapGet_eq_some_iff ps k v hnd] at hg
    rw [mapGet_eq_some_iff m k v hnd']
    exact h.mem_iff.mpr hg

theorem mapSet_absent (m : List (ℕ × List Frame)) (k : ℕ) (v : List Frame)
    (h : mapGet m k = none) : mapSet m k v = m ++ [(k, v)] := by
  have hf : m.find? (fun p => p.1 == k) = none := by
    simp only [mapGet] at h
    exact Option.map_eq_none.mp h
  simp [mapSet, hf]

theorem mapSet_present_perm (m tail : List (ℕ × List Frame)) (k : ℕ)
    (v w : List Frame) (h : m.Perm ((k, v) :: tail))
    (hnd : (((k, v) :: tail).map Prod.fst).Nodup) :
    (mapSet m k w).Perm ((k, w) :: tail) := by
  have hget : mapGet m k = some v := by
    rw [mapGet_perm m ((k, v) :: tail) h hnd k, mapGet_cons_self]
  have hfind : (m.find? (fun p => p.1 == k)).isSome = true := by
    simp only [mapGet] at hget
    rcases hf : m.find? (fun p => p.1 == k) with _ | p
    · rw [hf] at hget
      simp at hget
    · rw [hf]
      rfl
  simp only [List.map_cons, List.nodup_cons] at hnd
  have htail : tail.map (fun p => if p.1 == k then (k, w) else p) = tail := by
    rw [List.map_congr_left, List.map_id]
    intro p hp
    have hne : p.1 ≠ k := fun he =>
      hnd.1 (he ▸ List.mem_map_of_mem Prod.fst hp)
    simp [hne]
  have hperm := h.map (fun p => if p.1 == k then (k, w) else p)
  simp only [List.map_cons] at hperm
  rw [show (if (((k, v) : ℕ × List Frame).1 == k) then ((k, w) : ℕ × List Frame)
      else (k, v)) = (k, w) from by simp] at hperm
  rw [htail] at hperm
  simpa [mapSet, hfind] using hperm

theorem mapDelete_perm (m tail : List (ℕ × List Frame)) (k : ℕ)
    (v : List Frame) (h : m.Perm ((k, v) :: tail))
    (hnd : (((k, v) :: tail).map Prod.fst).Nodup) :
    (mapDelete m k).Perm tail := by
  simp only [List.map_cons, List.nodup_cons] at hnd
  have htail : tail.filter (fun p => !(p.1 == k)) = tail := by
    rw [List.filter_eq_self]
    intro p hp
    have hne : p.1 ≠ k := fun he =>
      hnd.1 (he ▸ List.mem_map_of_mem Prod.fst hp)
    simp [hne]
  have hstep : List.filter (fun p => !(p.1 == k)) ((k, v) :: tail) = tail := by
    rw [List.filter_cons]
    simp [htail]
  have hperm := h.filter (fun p => !(p.1 == k))
  rw [hstep] at hperm
  simpa [mapDelete] using hperm

theorem advanceSkipped_not_mem (next : ℕ) (skipped : List ℕ)
    (h : next ∉ skipped) : advanceSkipped next skipped = (next, skipped) := by
  cases skipped with
  | nil => rfl
  | cons a t =>
      simp only [advanceSkipped, List.length_cons, advanceSkippedAux]
      rw [if_neg h]

theorem advanceSkipped_mem (next : ℕ) (skipped : List ℕ)
    (h : next ∈ skipped) :
    advanceSkipped next skipped = advanceSkipped (next + 1)
      (skipped.erase next) := by
  have hlen : skipped.length = (skipped.erase next).length + 1 := by
    have h1 := List.length_erase_of_mem h
    have h2 := List.length_pos_of_mem h
    omega
  simp only [advanceSkipped, hlen, advanceSkippedAux]
  rw [if_pos h]

theorem advanceSkipped_spec (fuel : ℕ) : ∀ (skipped : List ℕ) (next : ℕ),
    skipped.length ≤ fuel → skipped.Nodup →
    (next ≤ (advanceSkipped next skipped).1
      ∧ (advanceSkipped next skipped).1 ∉ (advanceSkipped next skipped).2
      ∧ (∀ j, next ≤ j → j < (advanceSkipped next skipped).1 → j ∈ skipped)
      ∧ (∀ j, j ∈ (advanceSkipped next skipped).2 ↔
          (j ∈ skipped ∧ ¬(next ≤ j ∧ j < (advanceSkipped next skipped).1)))
      ∧ (advanceSkipped next skipped).2.Nodup) := by
  induction fuel with
  | zero =>
      intro skipped next hlen hnd
      have : skipped = [] := List.length_eq_zero.mp (Nat.le_zero.mp hlen)
      subst this
      rw [advanceSkipped_not_mem next [] (by simp)]
      refine ⟨Nat.le_refl _, by simp, ?_, ?_, List.nodup_nil⟩
      · intro j h1 h2
        omega
      · intro j
        simp
  | succ fuel ih =>
      intro skipped next hlen hnd
      by_cases h : next ∈ skipped
      · rw [advanceSkipped_mem next skipped h]
        have hlen' : (skipped.erase next).length ≤ fuel := by
          have := List.length_erase_of_mem h
          omega
        have hnd' : (skipped.erase next).Nodup := hnd.erase next
        obtain ⟨a1, a2, a3, a4, a5⟩ := ih (skipped.erase next) (next + 1)
          hlen' hnd'
        refine ⟨by omega, a2, ?_, ?_, a5⟩
        · intro j h1 h2
          rcases Nat.eq_or_lt_of_le h1 with he | hlt
          · exact he ▸ h
          · exact List.mem_of_mem_erase (a3 j hlt h2)
        · intro j
          rw [a4 j, List.Nodup.mem_erase_iff hnd]
          have hb : next + 1 ≤ (advanceSkipped (next + 1)
              (skipped.erase next)).1 := a1
          constructor
          · rintro ⟨⟨hne, hmem⟩, hrange⟩
            refine ⟨hmem, ?_⟩
            rintro ⟨hj1, hj2⟩
            rcases Nat.eq_or_lt_of_le hj1 with he | hlt
            · exact hne he.symm
            · exact hrange ⟨hlt, hj2⟩
          · rintro ⟨hmem, hrange⟩
            have hne : j ≠ next := by
              rintro rfl
              exact hrange ⟨Nat.le_refl _, by omega⟩
            refine ⟨⟨hne, hmem⟩, ?_⟩
            rintro ⟨hj1, hj2⟩
            exact hrange ⟨by omega, hj2⟩
      · rw [advanceSkipped_not_mem next skipped h]
        refine ⟨Nat.le_refl _, h, ?_, ?_, hnd⟩
        · intro j h1 h2
          omega
        · intro j
          constructor
          · intro hj
            refine ⟨hj, ?_⟩
            rintro ⟨h1, h2⟩
            omega
          · exact fun hj => hj.1

/-! ### Claim C3: the completion phase preserves `OpsInv` -/

theorem ops_inv_init (chunks : ℕ → List Frame) (skippedChunk : ℕ → Bool)
    (minJitter : ℕ) :
    OpsInv chunks skippedChunk [] (AudioQueue.mk0 minJitter) := by
  refine ⟨by simp [AudioQueue.mk0], ?_, ?_, ?_, rfl, List.nodup_nil⟩
  · intro j hj
    simp [AudioQueue.mk0] at hj
  · intro j hj
    simp [AudioQueue.mk0] at hj
  · intro j hj
    simp at hj

theorem ops_inv_step (chunks : ℕ → List Frame) (skippedChunk : ℕ → Bool)
    (done : List ℕ) (q : AudioQueue) (s : ℕ)
    (hs : s ∉ done) (hne : skippedChunk s = false → chunks s ≠ [])
    (hinv : OpsInv chunks skippedChunk done q) :
    OpsInv chunks skippedChunk (done ++ [s])
      (applyChunkOp chunks skippedChunk q s) := by
  obtain ⟨hperm, hB, hC, hD, hF, hN⟩ := hinv
  have hkeymem : ∀ k, k ∈ q.framesBySequence.map Prod.fst ↔
      (k ∈ done ∧ skippedChunk k = false) := by
    intro k
    rw [(hperm.map Prod.fst).mem_iff]
    simp [List.map_map, Function.comp, List.mem_filter, List.mem_map]
  have hgetnone : mapGet q.framesBySequence s = none := by
    rw [mapGet_eq_none_iff]
    intro hk
    exact hs ((hkeymem s).mp hk).1
  unfold applyChunkOp
  by_cases hsc : skippedChunk s = true
  · rw [if_pos hsc]
    unfold AudioQueue.skip
    have hnotlt : ¬(s < q.nextDequeueSequence) := fun hlt => hs (hC s hlt).1
    rw [if_neg hnotlt, if_neg (by simp [hgetnone])]
    show OpsInv chunks skippedChunk (done ++ [s])
      { q with
        nextDequeueSequence := (advanceSkipped q.nextDequeueSequence
          (q.skippedSequences.insert s)).1
        skippedSequences := (advanceSkipped q.nextDequeueSequence
          (q.skippedSequences.insert s)).2 }
    have hsnot : s ∉ q.skippedSequences := fun hmem => hs (hB s hmem).2.1
    rw [List.insert_of_not_mem hsnot]
    have hsknd : (s :: q.skippedSequences).Nodup :=
      List.nodup_cons.mpr ⟨hsnot, hN⟩
    obtain ⟨a1, a2, a3, a4, a5⟩ := advanceSkipped_spec
      (s :: q.skippedSequences).length (s :: q.skippedSequences)
      q.nextDequeueSequence (Nat.le_refl _) hsknd
    have hgelow : ∀ j, j ∈ s :: q.skippedSequences →
        q.nextDequeueSequence ≤ j := by
      intro j hj
      rcases List.mem_cons.mp hj with rfl | hj
      · omega
      · exact Nat.le_of_lt (hB j hj).2.2
    refine ⟨?_, ?_, ?_, ?_, hF, a5⟩
    · rw [List.filter_append]
      rw [show List.filter (fun x => !skippedChunk x) [s] = [] from by
        simp [hsc]]
      rw [List.append_nil]
      exact hperm
    · intro j hj
      have h4 := (a4 j).mp hj
      have hsk2 : skippedChunk j = true := by
        rcases List.mem_cons.mp h4.1 with rfl | hj2
        · exact hsc
        · exact (hB j hj2).1
      have hjd : j ∈ done ++ [s] := by
        rcases List.mem_cons.mp h4.1 with rfl | hj2
        · simp
        · exact List.mem_append_left _ (hB j hj2).2.1
      refine ⟨hsk2, hjd, ?_⟩
      have hge : q.nextDequeueSequence ≤ j := hgelow j h4.1
      have hnr := h4.2
      have hjge : (advanceSkipped q.nextDequeueSequence
          (s :: q.skippedSequences)).1 ≤ j := by
        by_contra hlt
        exact hnr ⟨hge, by omega⟩
      have hjne : j ≠ (advanceSkipped q.nextDequeueSequence
          (s :: q.skippedSequences)).1 := by
        intro he
        exact a2 (he ▸ hj)
      show (advanceSkipped q.nextDequeueSequence
        (s :: q.skippedSequences)).1 < j
      omega
    · intro j hj
      by_cases hlt : j < q.nextDequeueSequence
      · obtain ⟨hd, hks⟩ := hC j hlt
        exact ⟨List.mem_append_left _ hd, hks⟩
      · have hmem := a3 j (by omega) hj
        rcases List.mem_cons.mp hmem with rfl | hj2
        · exact ⟨by simp, hsc⟩
        · exact ⟨List.mem_append_left _ (hB j hj2).2.1, (hB j hj2).1⟩
    · intro j hj hks
      by_cases hlt : j < (advanceSkipped q.nextDequeueSequence
          (s :: q.skippedSequences)).1
      · exact Or.inr hlt
      · left
        rw [a4 j]
        rcases List.mem_append.mp hj with hjd | hjs
        · rcases hD j hjd hks with hjsk | hjlt
          · exact ⟨List.mem_cons_of_mem _ hjsk, fun hr => hlt hr.2⟩
          · omega
        · have : j = s := by simpa using hjs
          subst this
          exact ⟨List.mem_cons_self _ _, fun hr => hlt hr.2⟩
  · have hsc' : skippedChunk s = false := by simpa using hsc
    rw [if_neg (by simp [hsc'])]
    unfold AudioQueue.enqueue
    rw [if_neg (hne hsc'), hgetnone]
    show OpsInv chunks skippedChunk (done ++ [s])
      { q with framesBySequence := mapSet q.framesBySequence s (chunks s) }
    rw [mapSet_absent _ _ _ hgetnone]
    refine ⟨?_, ?_, ?_, ?_, hF, hN⟩
    · rw [List.filter_append]
      rw [show List.filter (fun x => !skippedChunk x) [s] = [s] from by
        simp [hsc']]
      rw [List.map_append]
      exact hperm.append_right _
    · intro j hj
      obtain ⟨h1, h2, h3⟩ := hB j hj
      exact ⟨h1, List.mem_append_left _ h2, h3⟩
    · intro j hj
      obtain ⟨h1, h2⟩ := hC j hj
      exact ⟨List.mem_append_left _ h1, h2⟩
    · intro j hj hks
      rcases List.mem_append.mp hj with hjd | hjs
      · exact hD j hjd hks
      · have : j = s := by simpa using hjs
        subst this
        rw [hsc'] at hks
        exact absurd hks (by simp)

theorem ops_inv_fold (chunks : ℕ → List Frame) (skippedChunk : ℕ → Bool) :
    ∀ (l done : List ℕ) (q : AudioQueue),
    (∀ x ∈ l, x ∉ done ∧ (skippedChunk x = false → chunks x ≠ [])) →
    l.Nodup →
    OpsInv chunks skippedChunk done q →
    OpsInv chunks skippedChunk (done ++ l)
      (l.foldl (applyChunkOp chunks skippedChunk) q) := by
  intro l
  induction l with
  | nil =>
      intro done q _ _ hinv
      simpa using hinv
  | cons x t ih =>
      intro done q hl hnd hinv
      have hstep := ops_inv_step chunks skippedChunk done q x
        (hl x (by simp)).1 (hl x (by simp)).2 hinv
      have hrec := ih (done ++ [x])
        (applyChunkOp chunks skippedChunk q x)
        (fun y hy => ⟨?_, (hl y (List.mem_cons_of_mem _ hy)).2⟩)
        (List.nodup_cons.mp hnd).2 hstep
      · simpa [List.append_assoc] using hrec
      · intro hymem
        rcases List.mem_append.mp hymem with hyd | hyx
        · exact (hl y (List.mem_cons_of_mem _ hy)).1 hyd
        · have : y = x := by simpa using hyx
          subst this
          exact (List.nodup_cons.mp hnd).1 hy

/-! ### Claim C3: draining a `DrainInv` state -/

theorem cjb_next (q : AudioQueue) :
    (q.checkJitterBuffer).2.nextDequeueSequence
      = (advanceSkipped q.nextDequeueSequence q.skippedSequences).1 := by
  simp only [AudioQueue.checkJitterBuffer]
  split
  · rfl
  split
  · rfl
  split <;> (try split) <;> rfl

theorem cjb_skipped (q : AudioQueue) :
    (q.checkJitterBuffer).2.skippedSequences
      = (advanceSkipped q.nextDequeueSequence q.skippedSequences).2 := by
  simp only [AudioQueue.checkJitterBuffer]
  split
  · rfl
  split
  · rfl
  split <;> (try split) <;> rfl

theorem dequeueNext_none_of_empty (q : AudioQueue)
    (h : q.framesBySequence = []) : q.dequeueNext.1 = none := by
  rcases hb : (q.checkJitterBuffer).1 with _ | _
  · exact dequeueNext_none_of_gate q hb
  · simp only [AudioQueue.dequeueNext]
    rw [if_neg (by simp [hb])]
    have hm : (q.checkJitterBuffer).2.framesBySequence = [] := by
      rw [cjb_map, h]
    rw [hm]
    rfl

theorem dequeueNext_eval (q : AudioQueue) (f : Frame) (rest : List Frame)
    (n : ℕ) (S : List ℕ)
    (hgate : (q.checkJitterBuffer).1 = true)
    (hnext : (q.checkJitterBuffer).2.nextDequeueSequence = n)
    (hskipped : (q.checkJitterBuffer).2.skippedSequences = S)
    (hnomem : n ∉ S)
    (hlook : mapGet q.framesBySequence n = some (f :: rest)) :
    q.dequeueNext =
      (if rest = [] then
        (some f,
          { (q.checkJitterBuffer).2 with
            framesBySequence := mapDelete q.framesBySequence n
            nextDequeueSequence := n + 1
            skippedSequences := S })
      else
        (some f,
          { (q.checkJitterBuffer).2 with
            framesBySequence := mapSet q.framesBySequence n rest
            nextDequeueSequence := n
            skippedSequences := S })) := by
  have hmap := cjb_map q
  simp only [AudioQueue.dequeueNext, hgate, hnext, hskipped, hmap,
    advanceSkipped_not_mem n S hnomem, hlook]
  rcases rest with _ | ⟨f2, r2⟩
  · simp
  · simp

theorem dequeue_step (q : AudioQueue) (k : ℕ) (f : Frame)
    (rest : List Frame) (tail : List (ℕ × List Frame))
    (hinv : DrainInv ((k, f :: rest) :: tail) q) :
    q.dequeueNext.1 = some f
      ∧ DrainInv (if rest = [] then tail else (k, rest) :: tail)
          q.dequeueNext.2 := by
  obtain ⟨hperm, hasc, hvne, hkge, hcov, hskp, hnd⟩ := hinv
  have hkeys_nodup : (((k, f :: rest) :: tail).map Prod.fst).Nodup :=
    hasc.imp (fun h => Nat.ne_of_lt h)
  obtain ⟨hlt_all, htail_pw⟩ :
      (∀ k' ∈ tail.map Prod.fst, k < k') ∧
        (tail.map Prod.fst).Pairwise (· < ·) := by
    simpa [List.pairwise_cons] using hasc
  obtain ⟨a1, a2, a3, a4, a5⟩ := advanceSkipped_spec
    q.skippedSequences.length q.skippedSequences q.nextDequeueSequence
    (Nat.le_refl _) hnd
  have hk_mem_keys : k ∈ ((k, f :: rest) :: tail).map Prod.fst := by simp
  have hk_not_skip : k ∉ q.skippedSequences :=
    fun h => (hskp k h).2 hk_mem_keys
  have hnk : q.nextDequeueSequence ≤ k := hkge k hk_mem_keys
  have hlowskip : ∀ j, q.nextDequeueSequence ≤ j → j < k →
      j ∈ q.skippedSequences := by
    intro j h1 h2
    refine hcov j h1 ?_ ⟨k, hk_mem_keys, h2⟩
    simp only [List.map_cons, List.mem_cons, not_or]
    exact ⟨by omega, fun hj => by have := hlt_all j hj; omega⟩
  have hn'k : (advanceSkipped q.nextDequeueSequence q.skippedSequences).1
      = k := by
    rcases Nat.lt_trichotomy
        (advanceSkipped q.nextDequeueSequence q.skippedSequences).1 k
        with hlt | he | hgt
    · exfalso
      have hskmem := hlowskip _ a1 hlt
      have : (advanceSkipped q.nextDequeueSequence q.skippedSequences).1
          ∈ (advanceSkipped q.nextDequeueSequence q.skippedSequences).2 :=
        (a4 _).mpr ⟨hskmem, by omega⟩
      exact a2 this
    · exact he
    · exfalso
      exact hk_not_skip (a3 k hnk hgt)
  have hlook : mapGet q.framesBySequence k = some (f :: rest) := by
    rw [mapGet_perm _ _ hperm hkeys_nodup k, mapGet_cons_self]
  have hgate : (q.checkJitterBuffer).1 = true := by
    rw [cjb_true_iff]
    refine Or.inr (Or.inr ⟨f :: rest, ?_, by simp⟩)
    rw [hn'k, hlook]
  have hFmem : ∀ j,
      j ∈ (advanceSkipped q.nextDequeueSequence q.skippedSequences).2 ↔
        (j ∈ q.skippedSequences ∧
          ¬(q.nextDequeueSequence ≤ j ∧ j < k)) := by
    intro j
    rw [a4 j, hn'k]
  have hFgt : ∀ j,
      j ∈ (advanceSkipped q.nextDequeueSequence q.skippedSequences).2 →
        k < j := by
    intro j hj
    obtain ⟨hjs, hjr⟩ := (hFmem j).mp hj
    have h1 := (hskp j hjs).1
    have hjk : j ≠ k := fun he => hk_not_skip (he ▸ hjs)
    omega
  have hFnotail : ∀ j,
      j ∈ (advanceSkipped q.nextDequeueSequence q.skippedSequences).2 →
        j ∉ tail.map Prod.fst := by
    intro j hj hjt
    exact (hskp j ((hFmem j).mp hj).1).2 (by simp [hjt])
  have hFcov : ∀ j, k < j → j ∉ tail.map Prod.fst →
      (∃ k' ∈ tail.map Prod.fst, j < k') →
        j ∈ (advanceSkipped q.nextDequeueSequence q.skippedSequences).2 := by
    intro j hjk hjt hex
    obtain ⟨k', hk', hjk'⟩ := hex
    have hjs : j ∈ q.skippedSequences := by
      refine hcov j (by omega) ?_ ⟨k', by simp [hk'], hjk'⟩
      simp only [List.map_cons, List.mem_cons, not_or]
      exact ⟨by omega, hjt⟩
    exact (hFmem j).mpr ⟨hjs, by omega⟩
  have heval := dequeueNext_eval q f rest k
    (advanceSkipped q.nextDequeueSequence q.skippedSequences).2
    hgate (by rw [cjb_next, hn'k]) (cjb_skipped q) (hn'k ▸ a2) hlook
  rcases hrest : rest with _ | ⟨f2, rest2⟩
  · subst hrest
    rw [if_pos rfl] at heval
    rw [heval]
    rw [if_pos rfl]
    refine ⟨rfl, ?_, htail_pw, ?_, ?_, ?_, ?_, ?_⟩
    · show (mapDelete q.framesBySequence k).Perm tail
      exact mapDelete_perm _ _ _ _ hperm hkeys_nodup
    · exact fun p hp => hvne p (List.mem_cons_of_mem _ hp)
    · intro k' hk'
      show k + 1 ≤ k'
      have := hlt_all k' hk'
      omega
    · intro j hj1 hj2 hj3
      have hj1' : k + 1 ≤ j := hj1
      exact hFcov j (by omega) hj2 hj3
    · intro j hj
      have hj' : j ∈ (advanceSkipped q.nextDequeueSequence
          q.skippedSequences).2 := hj
      have h1 := hFgt j hj'
      refine ⟨?_, hFnotail j hj'⟩
      show k + 1 ≤ j
      omega
    · show (advanceSkipped q.nextDequeueSequence q.skippedSequences).2.Nodup
      exact a5
  · rw [← hrest]
    have hrne : rest ≠ [] := by simp [hrest]
    rw [if_neg hrne] at heval
    rw [heval]
    rw [if_neg hrne]
    refine ⟨rfl, ?_, hasc, ?_, ?_, ?_, ?_, ?_⟩
    · show (mapSet q.framesBySequence k rest).Perm ((k, rest) :: tail)
      exact mapSet_present_perm _ _ _ _ _ hperm hkeys_nodup
    · intro p hp
      rcases List.mem_cons.mp hp with rfl | hp2
      · exact hrne
      · exact hvne p (List.mem_cons_of_mem _ hp2)
    · intro k' hk'
      show k ≤ k'
      simp only [List.map_cons, List.mem_cons] at hk'
      rcases hk' with rfl | hk'2
      · exact Nat.le_refl _
      · exact Nat.le_of_lt (hlt_all k' hk'2)
    · intro j hj1 hj2 hj3
      have hj1' : k ≤ j := hj1
      have hjk : k < j := by
        rcases Nat.eq_or_lt_of_le hj1' with he | hlt
        · exfalso
          exact hj2 (by simp [← he])
        · exact hlt
      refine hFcov j hjk ?_ ?_
      · intro hjt
        exact hj2 (by simp [hjt])
      · obtain ⟨k', hk', hjk'⟩ := hj3
        simp only [List.map_cons, List.mem_cons] at hk'
        rcases hk' with rfl | hk'2
        · omega
        · exact ⟨k', hk'2, hjk'⟩
    · intro j hj
      have hj' : j ∈ (advanceSkipped q.nextDequeueSequence
          q.skippedSequences).2 := hj
      have h1 := hFgt j hj'
      refine ⟨?_, ?_⟩
      · show k ≤ j
        omega
      · intro hjmem
        simp only [List.map_cons, List.mem_cons] at hjmem
        rcases hjmem with rfl | hjt
        · omega
        · exact hFnotail j hj' hjt
    · show (advanceSkipped q.nextDequeueSequence q.skippedSequences).2.Nodup
      exact a5

/-! ### Claim C3: full drain and assembly -/

theorem drain_go (fuel : ℕ) : ∀ (ps : List (ℕ × List Frame))
    (q : AudioQueue), DrainInv ps q →
    (ps.map (fun p => p.2.length)).sum ≤ fuel →
    drainFuel fuel q = (ps.map Prod.snd).flatten := by
  induction fuel with
  | zero =>
      intro ps q hinv hsum
      rcases ps with _ | ⟨⟨k, v⟩, tail⟩
      · rfl
      · exfalso
        have hv : v ≠ [] := hinv.2.2.1 (k, v) (by simp)
        have hlen : 0 < v.length := List.length_pos.mpr hv
        simp only [List.map_cons, List.sum_cons] at hsum
        omega
  | succ fuel ih =>
      intro ps q hinv hsum
      rcases ps with _ | ⟨⟨k, v⟩, tail⟩
      · have hmap : q.framesBySequence = [] := hinv.1.eq_nil
        have hnone := dequeueNext_none_of_empty q hmap
        rcases hd : q.dequeueNext with ⟨o, q2⟩
        rcases o with _ | f
        · simp [drainFuel, hd]
        · exfalso
          rw [hd] at hnone
          simp at hnone
      · have hv : v ≠ [] := hinv.2.2.1 (k, v) (by simp)
        rcases hvs : v with _ | ⟨f, rest⟩
        · exact absurd hvs hv
        · subst hvs
          obtain ⟨h1, h2⟩ := dequeue_step q k f rest tail hinv
          rcases hd : q.dequeueNext with ⟨o, q2⟩
          rw [hd] at h1 h2
          subst h1
          simp only [drainFuel, hd]
          rcases hrest : rest with _ | ⟨f2, r2⟩
          · subst hrest
            rw [if_pos rfl] at h2
            have hsum2 : (tail.map (fun p => p.2.length)).sum ≤ fuel := by
              simp only [List.map_cons, List.sum_cons] at hsum
              simp at hsum
              omega
            rw [ih tail q2 h2 hsum2]
            simp
          · rw [← hrest]
            have hrne : rest ≠ [] := by simp [hrest]
            rw [if_neg hrne] at h2
            have hsum2 : (((k, rest) :: tail).map
                (fun p => p.2.length)).sum ≤ fuel := by
              simp only [List.map_cons, List.sum_cons] at hsum ⊢
              simp at hsum
              omega
            rw [ih ((k, rest) :: tail) q2 h2 hsum2]
            simp

theorem drainInv_of_opsInv (chunks : ℕ → List Frame)
    (skippedChunk : ℕ → Bool) (n : ℕ) (done : List ℕ) (q : AudioQueue)
    (hin : OpsInv chunks skippedChunk done q)
    (hdperm : done.Perm (List.range n))
    (hcs : ∀ s, s < n → skippedChunk s = false → chunks s ≠ []) :
    DrainInv (((List.range n).filter (fun s => !skippedChunk s)).map
      (fun s => (s, chunks s))) q := by
  obtain ⟨hperm, hB, hC, hD, hF, hN⟩ := hin
  have hdone_mem : ∀ x, x ∈ done ↔ x < n := by
    intro x
    rw [hdperm.mem_iff, List.mem_range]
  have hkeys : (((List.range n).filter (fun s => !skippedChunk s)).map
      (fun s => (s, chunks s))).map Prod.fst
      = (List.range n).filter (fun s => !skippedChunk s) := by
    rw [List.map_map]
    exact List.map_id _
  have hkeymem : ∀ x, x ∈ (((List.range n).filter
      (fun s => !skippedChunk s)).map (fun s => (s, chunks s))).map Prod.fst
      ↔ (x < n ∧ skippedChunk x = false) := by
    intro x
    rw [hkeys]
    simp [List.mem_filter]
  refine ⟨?_, ?_, ?_, ?_, ?_, ?_, hN⟩
  · exact hperm.trans ((hdperm.filter _).map _)
  · rw [hkeys]
    exact ((List.pairwise_lt_range n).filter _)
  · intro p hp
    simp only [List.mem_map, List.mem_filter] at hp
    obtain ⟨x, ⟨hx1, hx2⟩, hx3⟩ := hp
    rw [← hx3]
    exact hcs x (List.mem_range.mp hx1) (by simpa using hx2)
  · intro k hk
    obtain ⟨hk1, hk2⟩ := (hkeymem k).mp hk
    by_contra hlt
    have := (hC k (by omega)).2
    rw [hk2] at this
    exact absurd this (by simp)
  · intro j hj1 hj2 hj3
    obtain ⟨k', hk', hjk'⟩ := hj3
    have hk'n : k' < n := ((hkeymem k').mp hk').1
    have hjn : j < n := by omega
    have hjsk : skippedChunk j = true := by
      by_contra hns
      exact hj2 ((hkeymem j).mpr ⟨hjn, by simpa using hns⟩)
    rcases hD j ((hdone_mem j).mpr hjn) hjsk with hmem | hlt
    · exact hmem
    · omega
  · intro j hj
    obtain ⟨h1, h2, h3⟩ := hB j hj
    refine ⟨by omega, ?_⟩
    intro hjk
    have := ((hkeymem j).mp hjk).2
    rw [h1] at this
    exact absurd this (by simp)

theorem flatten_filter_map (skippedChunk : ℕ → Bool)
    (chunks : ℕ → List Frame) (l : List ℕ) :
    ((((l.filter (fun s => !skippedChunk s)).map
        (fun s => (s, chunks s))).map Prod.snd).flatten)
      = ((l.map (fun s => if skippedChunk s then [] else chunks s)).flatten) := by
  induction l with
  | nil => rfl
  | cons x t ih =>
      simp only [List.map_map] at ih
      by_cases h : skippedChunk x = true
      · simp [List.filter_cons, h, List.map_map, ih]
      · simp [List.filter_cons, h, List.map_map, ih]

/-- Claim C3 counterexample: the claim quantifies over every chunk
assignment, including a non-skipped chunk whose frame list is empty.
With chunk 0 empty (a successful empty TTS result) and chunk 1 holding
one frame, draining yields nothing although the chunk-seq-order
concatenation is that one frame — the empty chunk blocks the queue (see
C5), so the claim as stated is false. -/
theorem claim_C3_counterexample :
    drainFuel 5 (runChunkOps (fun s => if s = 1 then [[7]] else [])
        (fun _ => false) 1 [0, 1]) = []
      ∧ specConcat (fun s => if s = 1 then [[7]] else [])
        (fun _ => false) 2 = [[7]] := by
  decide

/-- Claim C3 amended: restricted to chunk assignments where every
non-skipped chunk contributes at least one frame (equivalently, empty
chunks are marked skipped), the ordered audio queue is correct: for any
permutation `order` of the completions of chunks `0..n-1` — each either
an `enqueue` of its frames or a `skip` — repeatedly calling
`dequeueNext` (with enough fuel to cover the queued frames) returns
exactly the concatenation of the non-skipped chunks' frames in chunk-seq
order; skipped chunks contribute nothing, and since the output is that
in-order concatenation, no frame of a later chunk ever precedes a frame
of an earlier non-skipped chunk. -/
theorem claim_C3_amended (chunks : ℕ → List Frame)
    (skippedChunk : ℕ → Bool) (n minJitter fuel : ℕ) (order : List ℕ)
    (hperm : order.Perm (List.range n))
    (hne : ∀ s, s < n → skippedChunk s = false → chunks s ≠ [])
    (hfuel : (runChunkOps chunks skippedChunk minJitter order).getDepth
      ≤ fuel) :
    drainFuel fuel (runChunkOps chunks skippedChunk minJitter order)
      = specConcat chunks skippedChunk n := by
  have hnodup : order.Nodup := hperm.nodup_iff.mpr (List.nodup_range n)
  have hops := ops_inv_fold chunks skippedChunk order []
    (AudioQueue.mk0 minJitter)
    (fun x hx => ⟨by simp,
      hne x (List.mem_range.mp (hperm.mem_iff.mp hx))⟩)
    hnodup (ops_inv_init chunks skippedChunk minJitter)
  rw [List.nil_append] at hops
  have hdi := drainInv_of_opsInv chunks skippedChunk n order
    (runChunkOps chunks skippedChunk minJitter order) hops hperm hne
  have hsum : ((((List.range n).filter (fun s => !skippedChunk s)).map
      (fun s => (s, chunks s))).map (fun p => p.2.length)).sum ≤ fuel := by
    have heq := (hdi.1.map (fun p => p.2.length)).sum_eq
    have : (runChunkOps chunks skippedChunk minJitter order).getDepth
        = ((((List.range n).filter (fun s => !skippedChunk s)).map
          (fun s => (s, chunks s))).map (fun p => p.2.length)).sum := heq
    omega
  rw [drain_go fuel _ _ hdi hsum]
  exact flatten_filter_map skippedChunk chunks (List.range n)

/-- Witness for the amended C3: chunks 0 and 2 enqueue, chunk 1 is
skipped, completion order 2,1,0 (mirroring the out-of-order TTS test). -/
theorem claim_C3_amended_witness :
    drainFuel 3 (runChunkOps
        (fun s => if s = 0 then [[1], [2]] else if s = 2 then [[3]] else [])
        (fun s => s == 1) 1 [2, 1, 0])
      = specConcat
        (fun s => if s = 0 then [[1], [2]] else if s = 2 then [[3]] else [])
        (fun s => s == 1) 3 :=
  claim_C3_amended
    (fun s => if s = 0 then [[1], [2]] else if s = 2 then [[3]] else [])
    (fun s => s == 1) 3 1 3 [2, 1, 0] (by decide) (by decide) (by decide)

end TeamsBridge
